import Mathlib

/-!
BoxArray (src/BoxData/BoxArray.hpp): a shallow embedding

`ppp::BoxArray<T>` owns a block obtained from `new T[n]` through the raw pointer `_data`
and keeps the element count in `_size`.  The embedding keeps both levels apart:

* the free store is a `Heap T`: a list of cells, cell `p` holding the live block at address
  `p`, or `none` once the block was released by `delete[]`;
* the object is the record `BoxArray T` of the two members `_size` and `_data`
  (an address into the heap).

Every member function is a function of the heap and the object that returns the outcome
together with the heap and the object after the call.  `size_t` is 64 bits wide: values are
natural numbers and the two places where the source can wrap (`++_size`, `_size - 1`) reduce
modulo `2 ^ 64` (`preIncrement`, `minusOne`).  Accesses that C++ leaves undefined (an index
outside the block, a pointer to no live block) are reported as faults instead of being
given a meaning.

Element type: the source allocates with `new T[n]`, without an initialiser (lines 63, 168,
176), so the elements of a fresh block are default-initialised: constructed by the default
constructor when `T` has one, and left indeterminate when `T` is a scalar type.  Every
allocating function therefore takes `fresh : Nat → Nat → T`, where `fresh p i` is the value
element `i` of the block allocated at address `p` holds after default-initialisation; an
indeterminate element is whatever value the storage held, and reading it yields that
value.  `defaultConstructed` is the `fresh` of a type whose default constructor produces
`default`.  A move assignment `x = std::move(y)` gives `x` the value of `y`; the
moved-from value of `y` is never read again by the code modelled here.
-/

namespace ppp

/-- Largest value of `size_t`. -/
def SIZE_MAX : Nat := 2 ^ 64 - 1

/-- The increment `++x` of a `size_t`: it wraps at `2 ^ 64`. -/
def preIncrement (x : Nat) : Nat := (x + 1) % 2 ^ 64

/-- The difference `x - 1` of a `size_t`: `0 - 1` wraps to `SIZE_MAX`, which is
`(x + 2 ^ 64 - 1) % 2 ^ 64` for every `x < 2 ^ 64` (`minusOne_eq_mod`). -/
def minusOne (x : Nat) : Nat := if x = 0 then SIZE_MAX else x - 1

/-- Abnormal outcomes: the two exceptions thrown by the class, the failure of `new T[n]`,
and the two kinds of undefined access to the free store. -/
inductive Fault where
  | out_of_range
  | underflow_error
  | bad_alloc
  | out_of_bounds (index len : Nat)
  | invalid_pointer (p : Nat)
  deriving DecidableEq, Repr

/-- The free store: cell `p` is `some blk` while the block at address `p` is live.
Addresses are natural numbers. -/
abbrev Heap (T : Type) := List (Option (List T))

namespace Heap

variable {T : Type}

/-- The live block at address `p`, if any. -/
def block (h : Heap T) (p : Nat) : Option (List T) :=
  match h[p]? with
  | some (some blk) => some blk
  | _ => none

/-- The `n` elements of the block freshly allocated at address `p`, as default-initialisation
leaves them. -/
def freshBlock (fresh : Nat → Nat → T) (p n : Nat) : List T :=
  (List.range n).map (fresh p)

/-- Allocation `new T[n]`, without an initialiser: a fresh address (distinct from every
earlier one, also for `n = 0`) holding the `n` elements default-initialisation leaves,
`fresh p 0, ..., fresh p (n - 1)`: nothing is written to them for a scalar `T`.  The
allocator grants at most `lim` elements and throws otherwise. -/
def new (lim : Nat) (fresh : Nat → Nat → T) (h : Heap T) (n : Nat) :
    Except Fault (Nat × Heap T) :=
  if n ≤ lim then .ok (h.length, h ++ [some (freshBlock fresh h.length n)])
  else .error .bad_alloc

/-- Release `delete[] p`: the block at `p` stops being live. -/
def delete (h : Heap T) (p : Nat) : Except Fault (Heap T) :=
  match h.block p with
  | some _ => .ok (h.set p none)
  | none => .error (.invalid_pointer p)

/-- Read of `p[i]`. -/
def read (h : Heap T) (p : Nat) (i : Nat) : Except Fault T :=
  match h.block p with
  | none => .error (.invalid_pointer p)
  | some blk =>
    match blk[i]? with
    | some v => .ok v
    | none => .error (.out_of_bounds i blk.length)

/-- Assignment `p[i] = v`. -/
def write (h : Heap T) (p : Nat) (i : Nat) (v : T) : Except Fault (Heap T) :=
  match h.block p with
  | none => .error (.invalid_pointer p)
  | some blk =>
    if i < blk.length then .ok (h.set p (some (blk.set i v)))
    else .error (.out_of_bounds i blk.length)

end Heap

/-- A `T *` into a block: the address of the block and the offset of the element. -/
structure Pointer where
  base : Nat
  off : Nat
  deriving DecidableEq, Repr

/-- A `std::reverse_iterator<T *>`: it wraps the pointer `current`. -/
structure ReverseIterator where
  current : Pointer
  deriving DecidableEq, Repr

/-- The data members of `BoxArray<T>` (lines 18-19). -/
structure BoxArray (T : Type) where
  _size : Nat
  _data : Nat
  deriving DecidableEq, Repr

/-- What a member function leaves behind: its outcome, the heap and the object. -/
abbrev Step (T α : Type) := Except Fault α × Heap T × BoxArray T

variable {T : Type}

/-- Default-initialisation of an element type whose default constructor produces
`default`: every element of every fresh block holds `default`. -/
def defaultConstructed [Inhabited T] : Nat → Nat → T := fun _ _ => default

/-- Default-initialisation of a scalar element type, on one run: the elements keep the
stale content of the storage, here `0xDEADBEEF` plus the address of the block. -/
def staleStorage : Nat → Nat → Nat := fun p _ => 3735928559 + p

/-- The loop `for (; first != last; ++first) *first = t` of `std::fill(p + i, p + i + r, t)`:
`r` assignments starting at index `i`. -/
def fillLoop (p : Nat) (t : T) : Nat → Nat → Heap T → Except Fault (Heap T)
  | 0, _, h => .ok h
  | r + 1, i, h =>
    match h.write p i t with
    | .error e => .error e
    | .ok h1 => fillLoop p t r (i + 1) h1

/-- The loop of `std::copy(init.begin(), init.end(), p + i)`: the elements of the
initializer list are assigned in list order to `p[i]`, `p[i + 1]`, ... -/
def copyLoop (p : Nat) : List T → Nat → Heap T → Except Fault (Heap T)
  | [], _, h => .ok h
  | x :: xs, i, h =>
    match h.write p i x with
    | .error e => .error e
    | .ok h1 => copyLoop p xs (i + 1) h1

/-- The transfer loop of `resize` (lines 169-170 and 177-178):
`for (size_t i = ...; i < bound; ++i) new_data[i] = std::move(_data[i]);`
run for the `r` iterations that remain from index `i` on. -/
def moveLoop (_data new_data : Nat) : Nat → Nat → Heap T → Except Fault (Heap T)
  | 0, _, h => .ok h
  | r + 1, i, h =>
    match h.read _data i with
    | .error e => .error e
    | .ok v =>
      match h.write new_data i v with
      | .error e => .error e
      | .ok h1 => moveLoop _data new_data r (i + 1) h1

namespace BoxArray

/-- Constructor `BoxArray(const size_t &size = 0)` (lines 61-63); `none` is the call
without an argument. -/
def ofSize (lim : Nat) (fresh : Nat → Nat → T) (h : Heap T) (size : Option Nat) :
    Except Fault (Heap T × BoxArray T) :=
  match Heap.new lim fresh h (size.getD 0) with
  | .error e => .error e
  | .ok (p, h1) => .ok (h1, { _size := size.getD 0, _data := p })

/-- Constructor `BoxArray(const size_t &size, const T &t)` (lines 65-70). -/
def ofSizeValue (lim : Nat) (fresh : Nat → Nat → T) (h : Heap T) (size : Nat) (t : T) :
    Except Fault (Heap T × BoxArray T) :=
  match Heap.new lim fresh h size with
  | .error e => .error e
  | .ok (p, h1) =>
    match fillLoop p t size 0 h1 with
    | .error e => .error e
    | .ok h2 => .ok (h2, { _size := size, _data := p })

/-- Constructor `BoxArray(std::initializer_list<T> init)` (lines 72-77). -/
def ofInit (lim : Nat) (fresh : Nat → Nat → T) (h : Heap T) (init : List T) :
    Except Fault (Heap T × BoxArray T) :=
  match Heap.new lim fresh h init.length with
  | .error e => .error e
  | .ok (p, h1) =>
    match copyLoop p init 0 h1 with
    | .error e => .error e
    | .ok h2 => .ok (h2, { _size := init.length, _data := p })

/-- Member `size()` (lines 157-161). -/
def size (b : BoxArray T) : Nat := b._size

/-- Member `resize(size_t new_size)` (lines 163-183). -/
def resize (lim : Nat) (fresh : Nat → Nat → T) (h : Heap T) (b : BoxArray T) (new_size : Nat) :
    Step T Unit :=
  if new_size = SIZE_MAX then
    -- `new T[++this->_size]`: the increment happens before the allocation
    let b1 : BoxArray T := { b with _size := preIncrement b._size }
    match Heap.new lim fresh h b1._size with
    | .error e => (.error e, h, b1)
    | .ok (new_data, h1) =>
      match moveLoop b1._data new_data (minusOne b1._size) 0 h1 with
      | .error e => (.error e, h1, b1)
      | .ok h2 =>
        match Heap.delete h2 b1._data with
        | .error e => (.error e, h2, b1)
        | .ok h3 => (.ok (), h3, { b1 with _data := new_data })
  else
    match Heap.new lim fresh h new_size with
    | .error e => (.error e, h, b)
    | .ok (new_data, h1) =>
      match moveLoop b._data new_data b._size 0 h1 with
      | .error e => (.error e, h1, b)
      | .ok h2 =>
        match Heap.delete h2 b._data with
        | .error e => (.error e, h2, b)
        | .ok h3 => (.ok (), h3, { _size := new_size, _data := new_data })

/-- The call `resize()` without an argument: the default argument `SIZE_MAX` of the
declaration (line 45) is passed. -/
def resizeDefault (lim : Nat) (fresh : Nat → Nat → T) (h : Heap T) (b : BoxArray T) :
    Step T Unit :=
  resize lim fresh h b SIZE_MAX

/-- Member `operator[](const size_t &index)` (lines 185-195), read through the returned
reference. -/
def index (h : Heap T) (b : BoxArray T) (index : Nat) : Step T T :=
  (Heap.read h b._data index, h, b)

/-- Member `at(const size_t &index)` (lines 197-211), read through the returned
reference. -/
def at_ (h : Heap T) (b : BoxArray T) (index : Nat) : Step T T :=
  if index ≥ b._size then (.error .out_of_range, h, b)
  else (Heap.read h b._data index, h, b)

/-- Member `front()` (lines 213-227). -/
def front (h : Heap T) (b : BoxArray T) : Step T T :=
  if b._size = 0 then (.error .underflow_error, h, b)
  else (Heap.read h b._data 0, h, b)

/-- Member `back()` (lines 229-243). -/
def back (h : Heap T) (b : BoxArray T) : Step T T :=
  if b._size = 0 then (.error .underflow_error, h, b)
  else (Heap.read h b._data (b._size - 1), h, b)

/-- Member `data()` (lines 245-255). -/
def data (b : BoxArray T) : Nat := b._data

/-- Member `fill(const T &t)` (lines 257-261). -/
def fill (h : Heap T) (b : BoxArray T) (t : T) : Step T Unit :=
  match fillLoop b._data t b._size 0 h with
  | .error e => (.error e, h, b)
  | .ok h1 => (.ok (), h1, b)

/-- Representation invariant: `_data` points to a live block of exactly `_size` elements. -/
def Valid (h : Heap T) (b : BoxArray T) : Prop :=
  (Heap.block h b._data).map List.length = some b._size

instance (h : Heap T) (b : BoxArray T) : Decidable (Valid h b) := by
  unfold Valid; infer_instance

/-- The elements of the buffer read in index order with the checked accessor. -/
def readAll (h : Heap T) (b : BoxArray T) : List (Except Fault T) :=
  (List.range b._size).map (fun i => (at_ h b i).1)

/-- Defaulted copy constructor `BoxArray(const BoxArray &) = default` (line 25): the new
object receives a copy of each data member of `other`, the pointer `_data` included; the
heap is not touched. -/
def copyCtor (h : Heap T) (other : BoxArray T) : Heap T × BoxArray T :=
  (h, { _size := other._size, _data := other._data })

/-- Defaulted copy assignment `operator=(const BoxArray &) = default` (line 27): each data
member of the object is overwritten by the one of `other`; the block the object pointed to
before is not released. -/
def copyAssign (h : Heap T) (_self other : BoxArray T) : Heap T × BoxArray T :=
  (h, { _size := other._size, _data := other._data })

/-- Defaulted move constructor `BoxArray(BoxArray &&) = default` (line 26): each data member
is moved, which for a `size_t` and for a raw pointer is a copy that leaves the source as it
was.  The result is the heap, the new object and the source after the move. -/
def moveCtor (h : Heap T) (other : BoxArray T) : Heap T × BoxArray T × BoxArray T :=
  (h, { _size := other._size, _data := other._data }, other)

/-- Defaulted move assignment `operator=(BoxArray &&) = default` (line 28): the heap, the
object and the source after the assignment. -/
def moveAssign (h : Heap T) (_self other : BoxArray T) : Heap T × BoxArray T × BoxArray T :=
  (h, { _size := other._size, _data := other._data }, other)

/-- Destructor `~BoxArray()` (lines 79-83): `delete[] _data`. -/
def dtor (h : Heap T) (b : BoxArray T) : Except Fault (Heap T) :=
  Heap.delete h b._data

/-- Member `begin()` (lines 85-95): the pointer `_data`. -/
def begin (b : BoxArray T) : Pointer := { base := b._data, off := 0 }

/-- Member `end()` (lines 97-107): the pointer `_data + _size`. -/
def end_ (b : BoxArray T) : Pointer := { base := b._data, off := 0 + b._size }

/-- Member `rbegin()` (lines 109-119): `std::reverse_iterator<T *>(end())`. -/
def rbegin (b : BoxArray T) : ReverseIterator := { current := end_ b }

/-- Member `rend()` (lines 121-131): `std::reverse_iterator<T *>(begin())`. -/
def rend (b : BoxArray T) : ReverseIterator := { current := begin b }

/-- Member `cbegin()` (lines 133-137). -/
def cbegin (b : BoxArray T) : Pointer := begin b

/-- Member `cend()` (lines 139-143). -/
def cend (b : BoxArray T) : Pointer := end_ b

/-- Member `crbegin()` (lines 145-149). -/
def crbegin (b : BoxArray T) : ReverseIterator := rbegin b

/-- Member `crend()` (lines 151-155). -/
def crend (b : BoxArray T) : ReverseIterator := rend b

/-- The assignment `b[index] = v` through the reference `operator[]` returns
(lines 185-189). -/
def assignIndex (h : Heap T) (b : BoxArray T) (index : Nat) (v : T) : Step T Unit :=
  match Heap.write h b._data index v with
  | .error e => (.error e, h, b)
  | .ok h1 => (.ok (), h1, b)

/-- The assignment `b.at(index) = v` through the reference `at` returns (lines 197-203). -/
def assignAt (h : Heap T) (b : BoxArray T) (index : Nat) (v : T) : Step T Unit :=
  if index ≥ b._size then (.error .out_of_range, h, b)
  else
    match Heap.write h b._data index v with
    | .error e => (.error e, h, b)
    | .ok h1 => (.ok (), h1, b)

end BoxArray

/-- Forward traversal `for (it = first; it != last; ++it) visit(*it)` over pointers: the
offsets and the values visited, in order.  `fuel` bounds the number of iterations; `none`
means the bound was reached before `it == last`. -/
def traverse (h : Heap T) (last : Pointer) :
    Nat → Pointer → Option (Except Fault (List (Nat × T)))
  | 0, it => if it = last then some (.ok []) else none
  | fuel + 1, it =>
    if it = last then some (.ok [])
    else
      match Heap.read h it.base it.off with
      | .error e => some (.error e)
      | .ok v =>
        match traverse h last fuel { base := it.base, off := it.off + 1 } with
        | some (.ok vs) => some (.ok ((it.off, v) :: vs))
        | r => r

/-- Reverse traversal `for (it = first; it != last; ++it) visit(*it)` over reverse
iterators: `*it` reads `*(current - 1)` and `++it` is `--current`.  A `current` at offset
`0` has no element before it. -/
def rtraverse (h : Heap T) (last : ReverseIterator) :
    Nat → ReverseIterator → Option (Except Fault (List (Nat × T)))
  | 0, it => if it = last then some (.ok []) else none
  | fuel + 1, it =>
    if it = last then some (.ok [])
    else if it.current.off = 0 then some (.error (.invalid_pointer it.current.base))
    else
      match Heap.read h it.current.base (it.current.off - 1) with
      | .error e => some (.error e)
      | .ok v =>
        match rtraverse h last fuel
            { current := { base := it.current.base, off := it.current.off - 1 } } with
        | some (.ok vs) => some (.ok ((it.current.off - 1, v) :: vs))
        | r => r

/-! Lemmas: blocks of the free store -/

namespace Heap

theorem block_eq_some_iff (h : Heap T) (p : Nat) (blk : List T) :
    block h p = some blk ↔ h[p]? = some (some blk) := by
  unfold block
  split
  · next b hb => simp [hb]
  · next hn =>
    constructor
    · intro hc; cases hc
    · intro hc; exact absurd hc (hn blk)

theorem block_lt_length {h : Heap T} {p : Nat} {blk : List T} (hb : block h p = some blk) :
    p < h.length := by
  rw [block_eq_some_iff] at hb
  by_contra hc
  have hle : h.length ≤ p := by omega
  rw [List.getElem?_eq_none hle] at hb
  cases hb

theorem block_congr {h h1 : Heap T} {p : Nat} (he : h1[p]? = h[p]?) :
    block h1 p = block h p := by
  unfold block; rw [he]

theorem block_append_self (h : Heap T) (blk : List T) :
    block (h ++ [some blk]) h.length = some blk := by
  rw [block_eq_some_iff]; simp

theorem block_append_lt (h : Heap T) (c : Option (List T)) {p : Nat} (hp : p < h.length) :
    block (h ++ [c]) p = block h p := by
  apply block_congr
  rw [List.getElem?_append_left hp]

theorem block_set_self (h : Heap T) {p : Nat} (blk : List T) (hp : p < h.length) :
    block (h.set p (some blk)) p = some blk := by
  rw [block_eq_some_iff]; simp [hp]

theorem block_set_none (h : Heap T) (p : Nat) : block (h.set p none) p = none := by
  unfold block
  by_cases hp : p < h.length
  · simp [hp]
  · have hle : (h.set p none).length ≤ p := by simp; omega
    rw [List.getElem?_eq_none hle]

theorem block_set_ne (h : Heap T) (c : Option (List T)) {p q : Nat} (hne : p ≠ q) :
    block (h.set p c) q = block h q := by
  apply block_congr
  simp [List.getElem?_set, hne]

theorem read_of_block {h : Heap T} {p : Nat} {blk : List T} (hb : block h p = some blk)
    {i : Nat} (hi : i < blk.length) : read h p i = .ok blk[i] := by
  unfold read; rw [hb]; simp [hi]

theorem write_of_block {h : Heap T} {p : Nat} {blk : List T} (hb : block h p = some blk)
    {i : Nat} (hi : i < blk.length) (v : T) :
    write h p i v = .ok (h.set p (some (blk.set i v))) := by
  unfold write; rw [hb]; simp [hi]

theorem write_out_of_bounds {h : Heap T} {p : Nat} {blk : List T}
    (hb : block h p = some blk) {i : Nat} (hi : blk.length ≤ i) (v : T) :
    write h p i v = .error (.out_of_bounds i blk.length) := by
  unfold write; rw [hb]; simp; omega

end Heap

/-! Lemmas: the three loops -/

theorem copyLoop_spec (p : Nat) : ∀ (vs : List T) (i : Nat) (h : Heap T) (d : List T),
    Heap.block h p = some d → i + vs.length ≤ d.length →
    ∃ h1 d1, copyLoop p vs i h = .ok h1 ∧ h1.length = h.length ∧
      (∀ q, q ≠ p → h1[q]? = h[q]?) ∧ Heap.block h1 p = some d1 ∧ d1.length = d.length ∧
      ∀ j, d1[j]? = if i ≤ j ∧ j < i + vs.length then vs[j - i]? else d[j]? := by
  intro vs
  induction vs with
  | nil =>
    intro i h d hb _
    refine ⟨h, d, rfl, rfl, fun _ _ => rfl, hb, rfl, ?_⟩
    intro j
    have hn : ¬ (i ≤ j ∧ j < i + ([] : List T).length) := by simp
    rw [if_neg hn]
  | cons x xs ih =>
    intro i h d hb hlen
    have hlen1 : i + (xs.length + 1) ≤ d.length := by simpa using hlen
    have hi : i < d.length := by omega
    have hp : p < h.length := Heap.block_lt_length hb
    have hbs : Heap.block (h.set p (some (d.set i x))) p = some (d.set i x) :=
      Heap.block_set_self h _ hp
    obtain ⟨h1, d1, hrun, hl, hframe, hblk, hdl, hget⟩ :=
      ih (i + 1) (h.set p (some (d.set i x))) (d.set i x) hbs (by simp; omega)
    refine ⟨h1, d1, ?_, ?_, ?_, hblk, ?_, ?_⟩
    · simp only [copyLoop, Heap.write_of_block hb hi]
      exact hrun
    · simpa using hl
    · intro q hq
      rw [hframe q hq, List.getElem?_set, if_neg (Ne.symm hq)]
    · simpa using hdl
    · intro j
      rw [hget j, List.getElem?_set]
      by_cases hj : j < i
      · have h1 : ¬ (i + 1 ≤ j ∧ j < i + 1 + xs.length) := by omega
        have h2 : ¬ (i ≤ j ∧ j < i + (x :: xs).length) := by omega
        have h3 : ¬ i = j := by omega
        rw [if_neg h1, if_neg h2, if_neg h3]
      · by_cases hji : j = i
        · subst hji
          have h1 : ¬ (j + 1 ≤ j ∧ j < j + 1 + xs.length) := by omega
          have h2 : j ≤ j ∧ j < j + (x :: xs).length := by simp
          rw [if_neg h1, if_pos h2, if_pos rfl, if_pos hi]
          simp
        · have h3 : ¬ i = j := by omega
          by_cases hju : j < i + 1 + xs.length
          · have h1 : i + 1 ≤ j ∧ j < i + 1 + xs.length := by omega
            have h2 : i ≤ j ∧ j < i + (x :: xs).length := by simp; omega
            rw [if_pos h1, if_pos h2]
            have hs : j - i = (j - (i + 1)) + 1 := by omega
            rw [hs, List.getElem?_cons_succ]
          · have h1 : ¬ (i + 1 ≤ j ∧ j < i + 1 + xs.length) := by omega
            have h2 : ¬ (i ≤ j ∧ j < i + (x :: xs).length) := by simp; omega
            rw [if_neg h1, if_neg h2, if_neg h3]

theorem copyLoop_out_of_bounds (p : Nat) : ∀ (vs : List T) (i : Nat) (h : Heap T)
    (d : List T), Heap.block h p = some d → i ≤ d.length → d.length < i + vs.length →
    copyLoop p vs i h = .error (.out_of_bounds d.length d.length) := by
  intro vs
  induction vs with
  | nil => intro i h d _ h1 h2; simp at h2; omega
  | cons x xs ih =>
    intro i h d hb h1 h2
    have h2a : d.length < i + (xs.length + 1) := by simpa using h2
    by_cases hi : i < d.length
    · have hp : p < h.length := Heap.block_lt_length hb
      have hbs : Heap.block (h.set p (some (d.set i x))) p = some (d.set i x) :=
        Heap.block_set_self h _ hp
      have := ih (i + 1) (h.set p (some (d.set i x))) (d.set i x) hbs
        (by simp; omega) (by simp; omega)
      simp only [copyLoop, Heap.write_of_block hb hi]
      simpa using this
    · have hie : i = d.length := by omega
      subst hie
      have hw := Heap.write_out_of_bounds hb (Nat.le_refl d.length) x
      simp only [copyLoop, hw]

theorem fillLoop_eq_copyLoop (p : Nat) (t : T) : ∀ (r i : Nat) (h : Heap T),
    fillLoop p t r i h = copyLoop p (List.replicate r t) i h := by
  intro r
  induction r with
  | zero => intro i h; rfl
  | succ r ih =>
    intro i h
    simp only [fillLoop, List.replicate_succ, copyLoop]
    cases Heap.write h p i t with
    | error e => rfl
    | ok h1 => exact ih (i + 1) h1

theorem moveLoop_eq_copyLoop {src dst : Nat} (hne : src ≠ dst) (s : List T) :
    ∀ (r i : Nat) (h : Heap T), Heap.block h src = some s → i + r ≤ s.length →
    moveLoop src dst r i h = copyLoop dst ((s.drop i).take r) i h := by
  intro r
  induction r with
  | zero => intro i h _ _; simp [moveLoop, copyLoop]
  | succ r ih =>
    intro i h hb hlen
    have hi : i < s.length := by omega
    rw [List.drop_eq_getElem_cons hi, List.take_succ_cons]
    simp only [moveLoop, copyLoop, Heap.read_of_block hb hi]
    cases hw : Heap.write h dst i s[i] with
    | error e => rfl
    | ok h1 =>
      have hb1 : Heap.block h1 src = some s := by
        unfold Heap.write at hw
        split at hw
        · cases hw
        · split at hw
          · cases hw
            rw [Heap.block_set_ne h _ (Ne.symm hne)]
            exact hb
          · cases hw
      exact ih (i + 1) h1 hb1 (by omega)

/-! Lemmas: allocation, transfer and release -/

namespace Heap

theorem read_of_getElem? {h : Heap T} {p : Nat} {blk : List T} (hb : block h p = some blk)
    {i : Nat} {v : T} (hv : blk[i]? = some v) : read h p i = .ok v := by
  unfold read; rw [hb]; simp [hv]

theorem read_ne_out_of_range (h : Heap T) (p i : Nat) :
    read h p i ≠ .error .out_of_range := by
  unfold read
  split
  · intro hc; cases hc
  · split
    · intro hc; cases hc
    · intro hc; cases hc

theorem read_ne_underflow_error (h : Heap T) (p i : Nat) :
    read h p i ≠ .error .underflow_error := by
  unfold read
  split
  · intro hc; cases hc
  · split
    · intro hc; cases hc
    · intro hc; cases hc

theorem delete_of_block {h : Heap T} {p : Nat} {blk : List T} (hb : block h p = some blk) :
    delete h p = .ok (h.set p none) := by
  unfold delete; rw [hb]

@[simp]
theorem length_freshBlock (fresh : Nat → Nat → T) (p n : Nat) :
    (freshBlock fresh p n).length = n := by
  simp [freshBlock]

theorem getElem?_freshBlock (fresh : Nat → Nat → T) (p n j : Nat) :
    (freshBlock fresh p n)[j]? = if j < n then some (fresh p j) else none := by
  unfold freshBlock
  rw [List.getElem?_map]
  by_cases hj : j < n
  · rw [List.getElem?_range hj, if_pos hj]; rfl
  · have hle : (List.range n).length ≤ j := by simp; omega
    rw [List.getElem?_eq_none hle, if_neg hj]; rfl

theorem new_of_le {lim n : Nat} (fresh : Nat → Nat → T) (h : Heap T) (hn : n ≤ lim) :
    new lim fresh h n = .ok (h.length, h ++ [some (freshBlock fresh h.length n)]) := by
  unfold new; rw [if_pos hn]

theorem new_of_lt {lim n : Nat} (fresh : Nat → Nat → T) (h : Heap T) (hn : lim < n) :
    new lim fresh h n = .error .bad_alloc := by
  unfold new; rw [if_neg (by omega)]

end Heap

namespace BoxArray

theorem valid_iff (h : Heap T) (b : BoxArray T) :
    Valid h b ↔ ∃ s, Heap.block h b._data = some s ∧ s.length = b._size := by
  unfold Valid
  cases Heap.block h b._data with
  | none => simp
  | some s => simp

end BoxArray

/-- The three steps shared by both branches of `resize`, when the new block is large
enough: allocate `m` elements, move the `s.length` old ones, release the old block. -/
theorem transfer_spec (lim : Nat) (fresh : Nat → Nat → T) (h : Heap T) (src : Nat)
    (s : List T) (m : Nat) (hb : Heap.block h src = some s) (hsm : s.length ≤ m)
    (hm : m ≤ lim) :
    ∃ h2 d1,
      Heap.new lim fresh h m = .ok (h.length, h ++ [some (Heap.freshBlock fresh h.length m)]) ∧
      moveLoop src h.length s.length 0 (h ++ [some (Heap.freshBlock fresh h.length m)]) = .ok h2 ∧
      Heap.delete h2 src = .ok (h2.set src none) ∧
      (h2.set src none).length = h.length + 1 ∧
      Heap.block (h2.set src none) h.length = some d1 ∧
      d1.length = m ∧
      (∀ j, d1[j]? = if j < s.length then s[j]? else
        if j < m then some (fresh h.length j) else none) ∧
      (∀ q, q ≠ src → q < h.length → (h2.set src none)[q]? = h[q]?) ∧
      Heap.block (h2.set src none) src = none := by
  have hsrc : src < h.length := Heap.block_lt_length hb
  have hne : src ≠ h.length := by omega
  have hb1 : Heap.block (h ++ [some (Heap.freshBlock fresh h.length m)]) src = some s := by
    rw [Heap.block_append_lt h _ hsrc]; exact hb
  have hmv := moveLoop_eq_copyLoop hne s s.length 0 _ hb1 (by omega)
  rw [List.drop_zero, List.take_length] at hmv
  obtain ⟨h2, d1, hrun, hl, hframe, hblk, hdl, hget⟩ :=
    copyLoop_spec h.length s 0 (h ++ [some (Heap.freshBlock fresh h.length m)])
      (Heap.freshBlock fresh h.length m) (Heap.block_append_self h _) (by simp; omega)
  have hb2 : Heap.block h2 src = some s := by
    rw [Heap.block_congr (hframe src hne)]; exact hb1
  refine ⟨h2, d1, Heap.new_of_le fresh h hm, hmv.trans hrun, Heap.delete_of_block hb2, ?_, ?_, ?_,
    ?_, ?_, Heap.block_set_none h2 src⟩
  · simp [hl]
  · rw [Heap.block_set_ne h2 _ hne]; exact hblk
  · simpa using hdl
  · intro j
    rw [hget j, Heap.getElem?_freshBlock]
    by_cases hj : j < s.length
    · have h1 : 0 ≤ j ∧ j < 0 + s.length := by omega
      rw [if_pos h1, if_pos hj]; simp
    · have h1 : ¬ (0 ≤ j ∧ j < 0 + s.length) := by omega
      rw [if_neg h1, if_neg hj]
  · intro q hq hql
    rw [List.getElem?_set, if_neg (Ne.symm hq), hframe q (by omega),
      List.getElem?_append_left hql]

/-- The same three steps when the new block is too small: the transfer loop leaves the
new block at index `m`. -/
theorem transfer_out_of_bounds (lim : Nat) (fresh : Nat → Nat → T) (h : Heap T) (src : Nat)
    (s : List T) (m : Nat) (hb : Heap.block h src = some s) (hsm : m < s.length)
    (hm : m ≤ lim) :
    Heap.new lim fresh h m = .ok (h.length, h ++ [some (Heap.freshBlock fresh h.length m)]) ∧
    moveLoop src h.length s.length 0 (h ++ [some (Heap.freshBlock fresh h.length m)]) =
      .error (.out_of_bounds m m) := by
  have hsrc : src < h.length := Heap.block_lt_length hb
  have hne : src ≠ h.length := by omega
  have hb1 : Heap.block (h ++ [some (Heap.freshBlock fresh h.length m)]) src = some s := by
    rw [Heap.block_append_lt h _ hsrc]; exact hb
  have hmv := moveLoop_eq_copyLoop hne s s.length 0 _ hb1 (by omega)
  rw [List.drop_zero, List.take_length] at hmv
  have hf := copyLoop_out_of_bounds h.length s 0 (h ++ [some (Heap.freshBlock fresh h.length m)])
    (Heap.freshBlock fresh h.length m) (Heap.block_append_self h _) (by omega) (by simp; omega)
  rw [Heap.length_freshBlock] at hf
  exact ⟨Heap.new_of_le fresh h hm, hmv.trans hf⟩

/-! Lemmas: the two branches of resize -/

theorem preIncrement_of_lt {n : Nat} (hn : n < SIZE_MAX) : preIncrement n = n + 1 := by
  unfold SIZE_MAX at hn; unfold preIncrement; omega

theorem minusOne_succ (n : Nat) : minusOne (n + 1) = n := by
  unfold minusOne; rw [if_neg (Nat.succ_ne_zero n)]; rfl

theorem minusOne_eq_mod {x : Nat} (hx : x < 2 ^ 64) :
    minusOne x = (x + 2 ^ 64 - 1) % 2 ^ 64 := by
  unfold minusOne SIZE_MAX
  by_cases h0 : x = 0
  · rw [if_pos h0, h0]; omega
  · rw [if_neg h0]; omega

theorem preIncrement_max : preIncrement SIZE_MAX = 0 := by
  unfold SIZE_MAX preIncrement; omega

theorem minusOne_zero : minusOne 0 = SIZE_MAX := by
  unfold minusOne; rw [if_pos rfl]

theorem SIZE_MAX_pos : 0 < SIZE_MAX := by
  unfold SIZE_MAX; omega

namespace BoxArray

theorem index_of_getElem? {h : Heap T} {b : BoxArray T} {s : List T}
    (hb : Heap.block h b._data = some s) {i : Nat} {v : T} (hv : s[i]? = some v) :
    (index h b i).1 = .ok v := by
  unfold index; exact Heap.read_of_getElem? hb hv

/-- Full description of `resize(k)` on the explicit-size branch when the buffer does not
shrink and the allocation succeeds. -/
theorem resize_explicit_spec (lim : Nat) (fresh : Nat → Nat → T) (h : Heap T)
    (b : BoxArray T)
    (k : Nat) (s : List T) (hb : Heap.block h b._data = some s) (hs : s.length = b._size)
    (hk : k ≠ SIZE_MAX) (hge : b._size ≤ k) (hlim : k ≤ lim) :
    ∃ h3 d1, resize lim fresh h b k = (.ok (), h3, { _size := k, _data := h.length }) ∧
      h3.length = h.length + 1 ∧
      Heap.block h3 h.length = some d1 ∧ d1.length = k ∧
      (∀ j, d1[j]? = if j < b._size then s[j]? else
        if j < k then some (fresh h.length j) else none) ∧
      (∀ q, q ≠ b._data → q < h.length → h3[q]? = h[q]?) ∧
      Heap.block h3 b._data = none := by
  obtain ⟨h2, d1, hnew, hmv, hdel, hl, hblk, hdl, hget, hframe, hold⟩ :=
    transfer_spec lim fresh h b._data s k hb (by omega) hlim
  rw [hs] at hmv hget
  refine ⟨h2.set b._data none, d1, ?_, hl, hblk, hdl, hget, hframe, hold⟩
  unfold resize
  rw [if_neg hk, hnew]
  dsimp only
  rw [hmv]
  dsimp only
  rw [hdel]

/-- The grow-by-one branch of `resize` with the local object `b1` written out. -/
theorem resize_sentinel_eq (lim : Nat) (fresh : Nat → Nat → T) (h : Heap T)
    (b : BoxArray T) :
    resize lim fresh h b SIZE_MAX =
      match Heap.new lim fresh h (preIncrement b._size) with
      | .error e => (.error e, h, { _size := preIncrement b._size, _data := b._data })
      | .ok (new_data, h1) =>
        match moveLoop b._data new_data (minusOne (preIncrement b._size)) 0 h1 with
        | .error e => (.error e, h1, { _size := preIncrement b._size, _data := b._data })
        | .ok h2 =>
          match Heap.delete h2 b._data with
          | .error e => (.error e, h2, { _size := preIncrement b._size, _data := b._data })
          | .ok h3 => (.ok (), h3, { _size := preIncrement b._size, _data := new_data }) := by
  unfold resize
  rw [if_pos rfl]

/-- Full description of `resize(SIZE_MAX)`, the grow-by-one branch, when the size does not
wrap and the allocation succeeds. -/
theorem resize_sentinel_spec (lim : Nat) (fresh : Nat → Nat → T) (h : Heap T)
    (b : BoxArray T)
    (s : List T) (hb : Heap.block h b._data = some s) (hs : s.length = b._size)
    (hn : b._size < SIZE_MAX) (hlim : b._size + 1 ≤ lim) :
    ∃ h3 d1, resize lim fresh h b SIZE_MAX =
        (.ok (), h3, { _size := b._size + 1, _data := h.length }) ∧
      h3.length = h.length + 1 ∧
      Heap.block h3 h.length = some d1 ∧ d1.length = b._size + 1 ∧
      (∀ j, d1[j]? = if j < b._size then s[j]? else
        if j < b._size + 1 then some (fresh h.length j) else none) ∧
      (∀ q, q ≠ b._data → q < h.length → h3[q]? = h[q]?) ∧
      Heap.block h3 b._data = none := by
  obtain ⟨h2, d1, hnew, hmv, hdel, hl, hblk, hdl, hget, hframe, hold⟩ :=
    transfer_spec lim fresh h b._data s (b._size + 1) hb (by omega) hlim
  rw [hs] at hmv hget
  have e1 : preIncrement b._size = b._size + 1 := preIncrement_of_lt hn
  have e2 : minusOne (b._size + 1) = b._size := minusOne_succ b._size
  refine ⟨h2.set b._data none, d1, ?_, hl, hblk, hdl, hget, hframe, hold⟩
  rw [resize_sentinel_eq, e1, e2, hnew]
  dsimp only
  rw [hmv]
  dsimp only
  rw [hdel]

/-- The grow-by-one branch returns only when the size does not wrap and the allocation
succeeds. -/
theorem resize_sentinel_ok_imp (lim : Nat) (fresh : Nat → Nat → T) (h : Heap T)
    (b : BoxArray T)
    (hv : Valid h b) (hsz : b._size ≤ SIZE_MAX)
    (hok : (resize lim fresh h b SIZE_MAX).1 = .ok ()) :
    b._size < SIZE_MAX ∧ b._size + 1 ≤ lim := by
  obtain ⟨s, hb, hs⟩ := (valid_iff h b).1 hv
  by_cases hn : b._size < SIZE_MAX
  · refine ⟨hn, ?_⟩
    by_contra hc
    have e1 : preIncrement b._size = b._size + 1 := preIncrement_of_lt hn
    have hnew : Heap.new lim fresh h (b._size + 1) = .error .bad_alloc :=
      Heap.new_of_lt fresh h (by omega)
    rw [resize_sentinel_eq, e1, hnew] at hok
    cases hok
  · exfalso
    have hmax : b._size = SIZE_MAX := by omega
    have e1 : preIncrement b._size = 0 := by rw [hmax]; exact preIncrement_max
    have e2 : minusOne 0 = s.length := by rw [hs, hmax]; exact minusOne_zero
    obtain ⟨hnew, hmv⟩ := transfer_out_of_bounds lim fresh h b._data s 0 hb
      (by rw [hs, hmax]; exact SIZE_MAX_pos) (Nat.zero_le lim)
    rw [resize_sentinel_eq, e1, e2, hnew] at hok
    dsimp only at hok
    rw [hmv] at hok
    cases hok

/-- On the explicit-size branch a shrinking `resize(k)` leaves the new block: the transfer
loop runs to the old size and its write at index `k` is outside the `k` new elements. -/
theorem resize_shrink_out_of_bounds (lim : Nat) (fresh : Nat → Nat → T) (h : Heap T)
    (b : BoxArray T)
    (k : Nat) (hv : Valid h b) (hk : k ≠ SIZE_MAX) (hlt : k < b._size) (hlim : k ≤ lim) :
    (resize lim fresh h b k).1 = .error (.out_of_bounds k k) := by
  obtain ⟨s, hb, hs⟩ := (valid_iff h b).1 hv
  obtain ⟨hnew, hmv⟩ := transfer_out_of_bounds lim fresh h b._data s k hb (by omega) hlim
  rw [hs] at hmv
  unfold resize
  rw [if_neg hk, hnew]
  dsimp only
  rw [hmv]

end BoxArray

/-! Lemmas: constructors and fill -/

namespace BoxArray

/-- What the three constructors share: a fresh block of `vs.length` elements is allocated
and the values `vs` are assigned to it in order. -/
theorem construct_spec (lim : Nat) (fresh : Nat → Nat → T) (h : Heap T) (vs : List T)
    (hlim : vs.length ≤ lim) :
    ∃ h1, Heap.new lim fresh h vs.length =
        .ok (h.length, h ++ [some (Heap.freshBlock fresh h.length vs.length)]) ∧
      copyLoop h.length vs 0 (h ++ [some (Heap.freshBlock fresh h.length vs.length)]) = .ok h1 ∧
      Heap.block h1 h.length = some vs ∧ h1.length = h.length + 1 ∧
      (∀ q, q < h.length → h1[q]? = h[q]?) := by
  obtain ⟨h1, d1, hrun, hl, hframe, hblk, hdl, hget⟩ :=
    copyLoop_spec h.length vs 0 (h ++ [some (Heap.freshBlock fresh h.length vs.length)])
      (Heap.freshBlock fresh h.length vs.length) (Heap.block_append_self h _) (by simp)
  have hd : d1 = vs := by
    apply List.ext_getElem?
    intro j
    rw [hget j, Heap.getElem?_freshBlock]
    by_cases hj : j < vs.length
    · have h1 : 0 ≤ j ∧ j < 0 + vs.length := by omega
      rw [if_pos h1]; simp
    · have h1 : ¬ (0 ≤ j ∧ j < 0 + vs.length) := by omega
      rw [if_neg h1, if_neg hj, List.getElem?_eq_none (by omega)]
  subst hd
  refine ⟨h1, Heap.new_of_le fresh h hlim, hrun, hblk, by simpa using hl, ?_⟩
  intro q hq
  rw [hframe q (by omega), List.getElem?_append_left hq]

theorem ofInit_eq (lim : Nat) (fresh : Nat → Nat → T) (h : Heap T) (init : List T)
    (hlim : init.length ≤ lim) :
    ∃ h1, ofInit lim fresh h init = .ok (h1, { _size := init.length, _data := h.length }) ∧
      Heap.block h1 h.length = some init ∧ h1.length = h.length + 1 ∧
      (∀ q, q < h.length → h1[q]? = h[q]?) := by
  obtain ⟨h1, hnew, hrun, hblk, hl, hframe⟩ := construct_spec lim fresh h init hlim
  refine ⟨h1, ?_, hblk, hl, hframe⟩
  unfold ofInit
  rw [hnew]
  dsimp only
  rw [hrun]

theorem ofSizeValue_eq (lim : Nat) (fresh : Nat → Nat → T) (h : Heap T) (n : Nat) (t : T)
    (hlim : n ≤ lim) :
    ∃ h1, ofSizeValue lim fresh h n t = .ok (h1, { _size := n, _data := h.length }) ∧
      Heap.block h1 h.length = some (List.replicate n t) ∧ h1.length = h.length + 1 ∧
      (∀ q, q < h.length → h1[q]? = h[q]?) := by
  obtain ⟨h1, hnew, hrun, hblk, hl, hframe⟩ :=
    construct_spec lim fresh h (List.replicate n t) (by simpa using hlim)
  rw [List.length_replicate] at hnew hrun
  refine ⟨h1, ?_, hblk, hl, hframe⟩
  unfold ofSizeValue
  rw [hnew]
  dsimp only
  rw [fillLoop_eq_copyLoop, hrun]

theorem ofSize_eq (lim : Nat) (fresh : Nat → Nat → T) (h : Heap T) (size : Option Nat)
    (hlim : size.getD 0 ≤ lim) :
    ofSize lim fresh h size = .ok (h ++ [some (Heap.freshBlock fresh h.length (size.getD 0))],
      { _size := size.getD 0, _data := h.length }) := by
  unfold ofSize
  rw [Heap.new_of_le fresh h hlim]

theorem fill_eq (h : Heap T) (b : BoxArray T) (t : T) (s : List T)
    (hb : Heap.block h b._data = some s) (hs : s.length = b._size) :
    ∃ h1, fill h b t = (.ok (), h1, b) ∧
      Heap.block h1 b._data = some (List.replicate b._size t) ∧ h1.length = h.length ∧
      (∀ q, q ≠ b._data → h1[q]? = h[q]?) := by
  obtain ⟨h1, d1, hrun, hl, hframe, hblk, hdl, hget⟩ :=
    copyLoop_spec b._data (List.replicate b._size t) 0 h s hb (by simp; omega)
  have hd : d1 = List.replicate b._size t := by
    apply List.ext_getElem?
    intro j
    rw [hget j, List.length_replicate]
    by_cases hj : j < b._size
    · have h1 : 0 ≤ j ∧ j < 0 + b._size := by omega
      rw [if_pos h1, Nat.sub_zero]
    · have h1 : ¬ (0 ≤ j ∧ j < 0 + b._size) := by omega
      have h2 : s.length ≤ j := by omega
      rw [if_neg h1, List.getElem?_eq_none h2, List.getElem?_replicate, if_neg hj]
  subst hd
  refine ⟨h1, ?_, hblk, hl, hframe⟩
  unfold fill
  rw [fillLoop_eq_copyLoop, hrun]

end BoxArray

/-! Claims about resize -/

namespace BoxArray

/-- C1 (as stated, refuted): an explicit `resize(SIZE_MAX)` on the valid buffer `{7, 8}`
returns, and the size afterwards is `3`, not `SIZE_MAX`: the value `SIZE_MAX` is taken by
the grow-by-one branch. -/
theorem resize_size_counterexample :
    Valid ([some [7, 8]] : Heap Nat) ⟨2, 0⟩ ∧
    (resize 8 defaultConstructed ([some [7, 8]] : Heap Nat) ⟨2, 0⟩ SIZE_MAX).1 = .ok () ∧
    size (resize 8 defaultConstructed ([some [7, 8]] : Heap Nat) ⟨2, 0⟩ SIZE_MAX).2.2 = 3 ∧
    size (resize 8 defaultConstructed ([some [7, 8]] : Heap Nat) ⟨2, 0⟩ SIZE_MAX).2.2 ≠
      SIZE_MAX :=
  ⟨by decide, rfl, rfl, by decide⟩

/-- C1 (amended): on a valid buffer, for every explicit count `k` other than `SIZE_MAX`
that is at least the old size and that the allocator grants, `resize(k)` returns and
`size() == k` afterwards. -/
theorem resize_size (lim : Nat) (fresh : Nat → Nat → T) (h : Heap T)
    (b : BoxArray T) (k : Nat)
    (hv : Valid h b) (hk : k ≠ SIZE_MAX) (hge : size b ≤ k) (hlim : k ≤ lim) :
    (resize lim fresh h b k).1 = .ok () ∧ size (resize lim fresh h b k).2.2 = k := by
  obtain ⟨s, hb, hs⟩ := (valid_iff h b).1 hv
  obtain ⟨h3, d1, heq, -⟩ := resize_explicit_spec lim fresh h b k s hb hs hk hge hlim
  rw [heq]
  exact ⟨rfl, rfl⟩

/-- Instance of `resize_size`: `resize(5)` on the buffer `{7, 8}`. -/
theorem resize_size_witness :
    Valid ([some [7, 8]] : Heap Nat) ⟨2, 0⟩ ∧ 5 ≠ SIZE_MAX ∧
    size (⟨2, 0⟩ : BoxArray Nat) ≤ 5 ∧ 5 ≤ 8 ∧
    ((resize 8 defaultConstructed ([some [7, 8]] : Heap Nat) ⟨2, 0⟩ 5).1 = .ok () ∧
      size (resize 8 defaultConstructed ([some [7, 8]] : Heap Nat) ⟨2, 0⟩ 5).2.2 = 5) :=
  ⟨by decide, by decide, by decide, by decide,
    resize_size 8 defaultConstructed [some [7, 8]] ⟨2, 0⟩ 5 (by decide) (by decide)
      (by decide) (by decide)⟩

/-- C2 (as stated, refuted), on two grounds.  After the explicit `resize(SIZE_MAX)` on the
valid buffer `{7}` the index `2` lies in `[old size, SIZE_MAX)`, yet the buffer has only two
elements: the unchecked read at index `2` is outside the block and the checked read is
refused.  And after `resize(3)` on `{7}` with a scalar element type, whose fresh elements
keep the stale storage, index `1` holds `3735928560` and not the default value. -/
theorem resize_contents_counterexample :
    Valid ([some [7]] : Heap Nat) ⟨1, 0⟩ ∧
    (resize 8 defaultConstructed ([some [7]] : Heap Nat) ⟨1, 0⟩ SIZE_MAX).1 = .ok () ∧
    size (⟨1, 0⟩ : BoxArray Nat) ≤ 2 ∧ 2 < SIZE_MAX ∧
    (index (resize 8 defaultConstructed ([some [7]] : Heap Nat) ⟨1, 0⟩ SIZE_MAX).2.1
      (resize 8 defaultConstructed ([some [7]] : Heap Nat) ⟨1, 0⟩ SIZE_MAX).2.2 2).1 =
        .error (.out_of_bounds 2 2) ∧
    (at_ (resize 8 defaultConstructed ([some [7]] : Heap Nat) ⟨1, 0⟩ SIZE_MAX).2.1
      (resize 8 defaultConstructed ([some [7]] : Heap Nat) ⟨1, 0⟩ SIZE_MAX).2.2 2).1 =
        .error .out_of_range ∧
    (resize 8 staleStorage ([some [7]] : Heap Nat) ⟨1, 0⟩ 3).1 = .ok () ∧
    (index (resize 8 staleStorage ([some [7]] : Heap Nat) ⟨1, 0⟩ 3).2.1
      (resize 8 staleStorage ([some [7]] : Heap Nat) ⟨1, 0⟩ 3).2.2 1).1 = .ok 3735928560 ∧
    (3735928560 : Nat) ≠ default :=
  ⟨by decide, rfl, by decide, by decide, rfl, rfl, rfl, rfl, by decide⟩

/-- C2 (amended): on a valid buffer of size `n`, for every explicit count `k` other than
`SIZE_MAX` with `n ≤ k` that the allocator grants, `resize(k)` returns, every index
`i < min n k` holds afterwards the element it held before, and every index `i` with
`n ≤ i < k` holds the default-initialised element `i` of the new block: the default value
when the default constructor of `T` produces it, an indeterminate value otherwise. -/
theorem resize_contents [Inhabited T] (lim : Nat) (fresh : Nat → Nat → T) (h : Heap T)
    (b : BoxArray T) (k : Nat)
    (hv : Valid h b) (hk : k ≠ SIZE_MAX) (hge : size b ≤ k) (hlim : k ≤ lim) :
    (resize lim fresh h b k).1 = .ok () ∧
    (∀ i, i < min (size b) k → ∃ v, (index h b i).1 = .ok v ∧
      (index (resize lim fresh h b k).2.1 (resize lim fresh h b k).2.2 i).1 = .ok v) ∧
    (∀ i, size b ≤ i → i < k →
      (index (resize lim fresh h b k).2.1 (resize lim fresh h b k).2.2 i).1 =
        .ok (fresh h.length i)) ∧
    ((∀ p i, fresh p i = default) → ∀ i, size b ≤ i → i < k →
      (index (resize lim fresh h b k).2.1 (resize lim fresh h b k).2.2 i).1 =
        .ok default) := by
  obtain ⟨s, hb, hs⟩ := (valid_iff h b).1 hv
  obtain ⟨h3, d1, heq, -, hblk, -, hget, -⟩ :=
    resize_explicit_spec lim fresh h b k s hb hs hk hge hlim
  rw [heq]
  have hnew : ∀ i, size b ≤ i → i < k →
      (index h3 (⟨k, h.length⟩ : BoxArray T) i).1 = .ok (fresh h.length i) := by
    intro i hi hik
    have hin : ¬ i < b._size := by unfold size at hi; omega
    apply index_of_getElem? (b := ⟨k, h.length⟩) hblk
    rw [hget i, if_neg hin, if_pos hik]
  refine ⟨rfl, ?_, hnew, ?_⟩
  · intro i hi
    have hin : i < b._size := lt_of_lt_of_le hi (min_le_left _ _)
    have hsi : i < s.length := by omega
    refine ⟨s[i], index_of_getElem? hb (List.getElem?_eq_getElem hsi), ?_⟩
    apply index_of_getElem? (b := ⟨k, h.length⟩) hblk
    rw [hget i, if_pos hin, List.getElem?_eq_getElem hsi]
  · intro hfresh i hi hik
    have := hnew i hi hik
    rw [hfresh] at this
    exact this

/-- Instance of `resize_contents`: `resize(5)` on the buffer `{7, 8}`. -/
theorem resize_contents_witness :
    Valid ([some [7, 8]] : Heap Nat) ⟨2, 0⟩ ∧ 5 ≠ SIZE_MAX ∧
    size (⟨2, 0⟩ : BoxArray Nat) ≤ 5 ∧ 5 ≤ 8 ∧
    ((resize 8 defaultConstructed ([some [7, 8]] : Heap Nat) ⟨2, 0⟩ 5).1 = .ok () ∧
    (∀ i, i < min (size (⟨2, 0⟩ : BoxArray Nat)) 5 →
      ∃ v, (index ([some [7, 8]] : Heap Nat) ⟨2, 0⟩ i).1 = .ok v ∧
      (index (resize 8 defaultConstructed ([some [7, 8]] : Heap Nat) ⟨2, 0⟩ 5).2.1
        (resize 8 defaultConstructed ([some [7, 8]] : Heap Nat) ⟨2, 0⟩ 5).2.2 i).1 =
          .ok v) ∧
    (∀ i, size (⟨2, 0⟩ : BoxArray Nat) ≤ i → i < 5 →
      (index (resize 8 defaultConstructed ([some [7, 8]] : Heap Nat) ⟨2, 0⟩ 5).2.1
        (resize 8 defaultConstructed ([some [7, 8]] : Heap Nat) ⟨2, 0⟩ 5).2.2 i).1 =
          .ok ((defaultConstructed : Nat → Nat → Nat) [some [7, 8]].length i)) ∧
    ((∀ p i, (defaultConstructed : Nat → Nat → Nat) p i = default) →
      ∀ i, size (⟨2, 0⟩ : BoxArray Nat) ≤ i → i < 5 →
      (index (resize 8 defaultConstructed ([some [7, 8]] : Heap Nat) ⟨2, 0⟩ 5).2.1
        (resize 8 defaultConstructed ([some [7, 8]] : Heap Nat) ⟨2, 0⟩ 5).2.2 i).1 =
          .ok default)) :=
  ⟨by decide, by decide, by decide, by decide,
    resize_contents 8 defaultConstructed [some [7, 8]] ⟨2, 0⟩ 5 (by decide) (by decide)
      (by decide) (by decide)⟩

/-- C3 (the code at the failing input): `resize(1)` on the valid buffer `{1, 2, 3}`
allocates one element and its transfer loop, bounded by the old size `3`, assigns to index
`1` of that block of length `1`. -/
theorem resize_shrink_writes_outside :
    Valid ([some [1, 2, 3]] : Heap Nat) ⟨3, 0⟩ ∧ 1 ≠ SIZE_MAX ∧
    (resize 8 defaultConstructed ([some [1, 2, 3]] : Heap Nat) ⟨3, 0⟩ 1).1 =
      .error (.out_of_bounds 1 1) :=
  ⟨by decide, by decide, rfl⟩

/-- C4 (as stated, refuted): `resize()` on the valid buffer `{7, 8}` with a scalar element
type, whose fresh elements keep the stale storage, returns with size `3` and with
`3735928560` at index `2`, not the default value. -/
theorem resizeDefault_counterexample :
    Valid ([some [7, 8]] : Heap Nat) ⟨2, 0⟩ ∧
    (resizeDefault 8 staleStorage ([some [7, 8]] : Heap Nat) ⟨2, 0⟩).1 = .ok () ∧
    size (resizeDefault 8 staleStorage ([some [7, 8]] : Heap Nat) ⟨2, 0⟩).2.2 = 3 ∧
    (index (resizeDefault 8 staleStorage ([some [7, 8]] : Heap Nat) ⟨2, 0⟩).2.1
      (resizeDefault 8 staleStorage ([some [7, 8]] : Heap Nat) ⟨2, 0⟩).2.2 2).1 =
        .ok 3735928560 ∧
    (3735928560 : Nat) ≠ default :=
  ⟨by decide, rfl, rfl, rfl, by decide⟩

/-- C4 (amended): on a valid buffer of size `n`, `resize()` without an argument returns
exactly when `n + 1` does not wrap and the allocator grants `n + 1` elements; after it has
returned, `size() == n + 1`, every index `i < n` holds the element it held before, and
index `n` holds the default-initialised element `n` of the new block: the default value
when the default constructor of `T` produces it, an indeterminate value otherwise. -/
theorem resizeDefault_spec [Inhabited T] (lim : Nat) (fresh : Nat → Nat → T) (h : Heap T)
    (b : BoxArray T) (hv : Valid h b) (hsz : size b ≤ SIZE_MAX) :
    ((resizeDefault lim fresh h b).1 = .ok () ↔ size b < SIZE_MAX ∧ size b + 1 ≤ lim) ∧
    ((resizeDefault lim fresh h b).1 = .ok () →
      size (resizeDefault lim fresh h b).2.2 = size b + 1 ∧
      (∀ i, i < size b → ∃ v, (index h b i).1 = .ok v ∧
        (index (resizeDefault lim fresh h b).2.1 (resizeDefault lim fresh h b).2.2 i).1 =
          .ok v) ∧
      (index (resizeDefault lim fresh h b).2.1 (resizeDefault lim fresh h b).2.2
        (size b)).1 = .ok (fresh h.length (size b)) ∧
      ((∀ p i, fresh p i = default) →
        (index (resizeDefault lim fresh h b).2.1 (resizeDefault lim fresh h b).2.2
          (size b)).1 = .ok default)) := by
  obtain ⟨s, hb, hs⟩ := (valid_iff h b).1 hv
  have hpost : size b < SIZE_MAX ∧ size b + 1 ≤ lim →
      (resizeDefault lim fresh h b).1 = .ok () ∧
      size (resizeDefault lim fresh h b).2.2 = size b + 1 ∧
      (∀ i, i < size b → ∃ v, (index h b i).1 = .ok v ∧
        (index (resizeDefault lim fresh h b).2.1 (resizeDefault lim fresh h b).2.2 i).1 =
          .ok v) ∧
      (index (resizeDefault lim fresh h b).2.1 (resizeDefault lim fresh h b).2.2
        (size b)).1 = .ok (fresh h.length (size b)) ∧
      ((∀ p i, fresh p i = default) →
        (index (resizeDefault lim fresh h b).2.1 (resizeDefault lim fresh h b).2.2
          (size b)).1 = .ok default) := by
    rintro ⟨hn, hl⟩
    obtain ⟨h3, d1, heq, -, hblk, -, hget, -⟩ :=
      resize_sentinel_spec lim fresh h b s hb hs hn hl
    unfold resizeDefault
    rw [heq]
    have hlast : (index h3 (⟨b._size + 1, h.length⟩ : BoxArray T) (size b)).1 =
        .ok (fresh h.length (size b)) := by
      apply index_of_getElem? (b := ⟨b._size + 1, h.length⟩) hblk
      have hin : ¬ size b < b._size := Nat.lt_irrefl _
      have hlt : size b < b._size + 1 := Nat.lt_succ_self _
      rw [hget (size b), if_neg hin, if_pos hlt]
    refine ⟨rfl, rfl, ?_, hlast, ?_⟩
    · intro i hi
      have hin : i < b._size := hi
      have hsi : i < s.length := by omega
      refine ⟨s[i], index_of_getElem? hb (List.getElem?_eq_getElem hsi), ?_⟩
      apply index_of_getElem? (b := ⟨b._size + 1, h.length⟩) hblk
      rw [hget i, if_pos hin, List.getElem?_eq_getElem hsi]
    · intro hfresh
      rw [hlast, hfresh]
  have hret : (resizeDefault lim fresh h b).1 = .ok () →
      size b < SIZE_MAX ∧ size b + 1 ≤ lim :=
    fun hok => resize_sentinel_ok_imp lim fresh h b hv hsz hok
  exact ⟨⟨hret, fun hc => (hpost hc).1⟩, fun hok => (hpost (hret hok)).2⟩

/-- Instance of `resizeDefault_spec`: `resize()` on the buffer `{7, 8}`, which returns. -/
theorem resizeDefault_spec_witness :
    Valid ([some [7, 8]] : Heap Nat) ⟨2, 0⟩ ∧ size (⟨2, 0⟩ : BoxArray Nat) ≤ SIZE_MAX ∧
    (resizeDefault 8 defaultConstructed ([some [7, 8]] : Heap Nat) ⟨2, 0⟩).1 = .ok () ∧
    (((resizeDefault 8 defaultConstructed ([some [7, 8]] : Heap Nat) ⟨2, 0⟩).1 = .ok () ↔
      size (⟨2, 0⟩ : BoxArray Nat) < SIZE_MAX ∧ size (⟨2, 0⟩ : BoxArray Nat) + 1 ≤ 8) ∧
    ((resizeDefault 8 defaultConstructed ([some [7, 8]] : Heap Nat) ⟨2, 0⟩).1 = .ok () →
      size (resizeDefault 8 defaultConstructed ([some [7, 8]] : Heap Nat) ⟨2, 0⟩).2.2 =
        size (⟨2, 0⟩ : BoxArray Nat) + 1 ∧
      (∀ i, i < size (⟨2, 0⟩ : BoxArray Nat) →
        ∃ v, (index ([some [7, 8]] : Heap Nat) ⟨2, 0⟩ i).1 = .ok v ∧
        (index (resizeDefault 8 defaultConstructed ([some [7, 8]] : Heap Nat) ⟨2, 0⟩).2.1
          (resizeDefault 8 defaultConstructed ([some [7, 8]] : Heap Nat) ⟨2, 0⟩).2.2 i).1 =
            .ok v) ∧
      (index (resizeDefault 8 defaultConstructed ([some [7, 8]] : Heap Nat) ⟨2, 0⟩).2.1
        (resizeDefault 8 defaultConstructed ([some [7, 8]] : Heap Nat) ⟨2, 0⟩).2.2
          (size (⟨2, 0⟩ : BoxArray Nat))).1 =
        .ok ((defaultConstructed : Nat → Nat → Nat) [some [7, 8]].length
          (size (⟨2, 0⟩ : BoxArray Nat))) ∧
      ((∀ p i, (defaultConstructed : Nat → Nat → Nat) p i = default) →
        (index (resizeDefault 8 defaultConstructed ([some [7, 8]] : Heap Nat) ⟨2, 0⟩).2.1
          (resizeDefault 8 defaultConstructed ([some [7, 8]] : Heap Nat) ⟨2, 0⟩).2.2
            (size (⟨2, 0⟩ : BoxArray Nat))).1 = .ok default))) :=
  ⟨by decide, by decide, rfl,
    resizeDefault_spec 8 defaultConstructed [some [7, 8]] ⟨2, 0⟩ (by decide) (by decide)⟩

end BoxArray

/-! Claims about access, construction and fill -/

namespace BoxArray

/-- C5: on a valid buffer, `at(i)` fails with OutOfRange exactly when `i >= size()`; for
`i < size()` it returns an element, the one `operator[](i)` returns; in both cases the
heap and the object (size and contents) are the ones before the call. -/
theorem at_spec (h : Heap T) (b : BoxArray T) (i : Nat) (hv : Valid h b) :
    ((at_ h b i).1 = .error .out_of_range ↔ size b ≤ i) ∧
    (i < size b → ∃ v, (at_ h b i).1 = .ok v ∧ (index h b i).1 = .ok v) ∧
    (at_ h b i).2 = (h, b) := by
  obtain ⟨s, hb, hs⟩ := (valid_iff h b).1 hv
  unfold at_ size
  by_cases hi : i ≥ b._size
  · rw [if_pos hi]
    exact ⟨⟨fun _ => hi, fun _ => rfl⟩, fun hlt => absurd hi (by omega), rfl⟩
  · rw [if_neg hi]
    have hsi : i < s.length := by omega
    refine ⟨⟨fun hc => absurd hc (Heap.read_ne_out_of_range h b._data i),
      fun hc => absurd hc hi⟩, fun _ => ⟨s[i], ?_, ?_⟩, rfl⟩
    · exact Heap.read_of_block hb hsi
    · exact index_of_getElem? hb (List.getElem?_eq_getElem hsi)

/-- Instance of `at_spec`: `at(1)` on the buffer `{7, 8, 9}`. -/
theorem at_spec_witness :
    Valid ([some [7, 8, 9]] : Heap Nat) ⟨3, 0⟩ ∧
    (((at_ ([some [7, 8, 9]] : Heap Nat) ⟨3, 0⟩ 1).1 = .error .out_of_range ↔
      size (⟨3, 0⟩ : BoxArray Nat) ≤ 1) ∧
    (1 < size (⟨3, 0⟩ : BoxArray Nat) →
      ∃ v, (at_ ([some [7, 8, 9]] : Heap Nat) ⟨3, 0⟩ 1).1 = .ok v ∧
        (index ([some [7, 8, 9]] : Heap Nat) ⟨3, 0⟩ 1).1 = .ok v) ∧
    (at_ ([some [7, 8, 9]] : Heap Nat) ⟨3, 0⟩ 1).2 = ([some [7, 8, 9]], ⟨3, 0⟩)) :=
  ⟨by decide, at_spec [some [7, 8, 9]] ⟨3, 0⟩ 1 (by decide)⟩

/-- C6: on a valid buffer, `front()` and `back()` each fail with Underflow exactly when
`size() == 0`; on a non-empty buffer `front()` returns the element `operator[](0)` returns
and `back()` the element `operator[](size() - 1)` returns. -/
theorem front_back_spec (h : Heap T) (b : BoxArray T) (hv : Valid h b) :
    ((front h b).1 = .error .underflow_error ↔ size b = 0) ∧
    ((back h b).1 = .error .underflow_error ↔ size b = 0) ∧
    (size b ≠ 0 → ∃ v w, (front h b).1 = .ok v ∧ (index h b 0).1 = .ok v ∧
      (back h b).1 = .ok w ∧ (index h b (size b - 1)).1 = .ok w) := by
  obtain ⟨s, hb, hs⟩ := (valid_iff h b).1 hv
  unfold front back size
  by_cases h0 : b._size = 0
  · rw [if_pos h0, if_pos h0]
    exact ⟨⟨fun _ => h0, fun _ => rfl⟩, ⟨fun _ => h0, fun _ => rfl⟩, fun hc => absurd h0 hc⟩
  · rw [if_neg h0, if_neg h0]
    have hs0 : 0 < s.length := by omega
    have hs1 : b._size - 1 < s.length := by omega
    refine ⟨⟨fun hc => absurd hc (Heap.read_ne_underflow_error h b._data 0),
      fun hc => absurd hc h0⟩,
      ⟨fun hc => absurd hc (Heap.read_ne_underflow_error h b._data _),
      fun hc => absurd hc h0⟩, fun _ => ⟨s[0], s[b._size - 1], ?_, ?_, ?_, ?_⟩⟩
    · exact Heap.read_of_block hb hs0
    · exact index_of_getElem? hb (List.getElem?_eq_getElem hs0)
    · exact Heap.read_of_block hb hs1
    · exact index_of_getElem? hb (List.getElem?_eq_getElem hs1)

/-- Instance of `front_back_spec` on the buffer `{7, 8, 9}`. -/
theorem front_back_spec_witness :
    Valid ([some [7, 8, 9]] : Heap Nat) ⟨3, 0⟩ ∧
    (((front ([some [7, 8, 9]] : Heap Nat) ⟨3, 0⟩).1 = .error .underflow_error ↔
      size (⟨3, 0⟩ : BoxArray Nat) = 0) ∧
    ((back ([some [7, 8, 9]] : Heap Nat) ⟨3, 0⟩).1 = .error .underflow_error ↔
      size (⟨3, 0⟩ : BoxArray Nat) = 0) ∧
    (size (⟨3, 0⟩ : BoxArray Nat) ≠ 0 →
      ∃ v w, (front ([some [7, 8, 9]] : Heap Nat) ⟨3, 0⟩).1 = .ok v ∧
        (index ([some [7, 8, 9]] : Heap Nat) ⟨3, 0⟩ 0).1 = .ok v ∧
        (back ([some [7, 8, 9]] : Heap Nat) ⟨3, 0⟩).1 = .ok w ∧
        (index ([some [7, 8, 9]] : Heap Nat) ⟨3, 0⟩
          (size (⟨3, 0⟩ : BoxArray Nat) - 1)).1 = .ok w)) :=
  ⟨by decide, front_back_spec [some [7, 8, 9]] ⟨3, 0⟩ (by decide)⟩

/-- C7: when the allocator grants `len(L)` elements, the constructor from the literal list
`L` yields a valid buffer with `size() == len(L)` whose element at every index
`i < len(L)` is `L[i]`; reading the buffer in index order yields exactly `L`. -/
theorem ofInit_spec (lim : Nat) (fresh : Nat → Nat → T) (h : Heap T) (L : List T)
    (hlim : L.length ≤ lim) :
    ∃ h1 b, ofInit lim fresh h L = .ok (h1, b) ∧ Valid h1 b ∧ size b = L.length ∧
      (∀ i (hi : i < L.length), (index h1 b i).1 = .ok L[i]) ∧
      readAll h1 b = L.map .ok := by
  obtain ⟨h1, heq, hblk, -⟩ := ofInit_eq lim fresh h L hlim
  refine ⟨h1, ⟨L.length, h.length⟩, heq, ?_, rfl, ?_, ?_⟩
  · exact (valid_iff _ _).2 ⟨L, hblk, rfl⟩
  · intro i hi
    exact index_of_getElem? (b := ⟨L.length, h.length⟩) hblk (List.getElem?_eq_getElem hi)
  · unfold readAll
    apply List.ext_getElem?
    intro j
    rw [List.getElem?_map, List.getElem?_map]
    by_cases hj : j < L.length
    · rw [List.getElem?_range hj, List.getElem?_eq_getElem hj]
      simp only [Option.map_some']
      unfold at_
      rw [if_neg (by simpa using hj)]
      exact congrArg some (Heap.read_of_block hblk hj)
    · have h2 : L.length ≤ j := by omega
      have h3 : (List.range L.length).length ≤ j := by simpa using h2
      rw [List.getElem?_eq_none h2, List.getElem?_eq_none h3]
      rfl

/-- Instance of `ofInit_spec`: the buffer built from `{4, 5, 6}` on an empty heap. -/
theorem ofInit_spec_witness :
    [4, 5, 6].length ≤ 8 ∧
    ∃ h1 b, ofInit 8 defaultConstructed ([] : Heap Nat) [4, 5, 6] = .ok (h1, b) ∧
      Valid h1 b ∧ size b = [4, 5, 6].length ∧
      (∀ i (hi : i < [4, 5, 6].length), (index h1 b i).1 = .ok [4, 5, 6][i]) ∧
      readAll h1 b = [4, 5, 6].map .ok :=
  ⟨by decide, ofInit_spec 8 defaultConstructed [] [4, 5, 6] (by decide)⟩

/-- C8: when the allocator grants `n` elements, `BoxArray(n, v)` yields a valid buffer with
`size() == n` whose element at every index `i < n` is `v`. -/
theorem ofSizeValue_spec (lim : Nat) (fresh : Nat → Nat → T) (h : Heap T) (n : Nat)
    (v : T) (hlim : n ≤ lim) :
    ∃ h1 b, ofSizeValue lim fresh h n v = .ok (h1, b) ∧ Valid h1 b ∧ size b = n ∧
      ∀ i, i < n → (index h1 b i).1 = .ok v := by
  obtain ⟨h1, heq, hblk, -⟩ := ofSizeValue_eq lim fresh h n v hlim
  refine ⟨h1, ⟨n, h.length⟩, heq, ?_, rfl, ?_⟩
  · exact (valid_iff _ _).2 ⟨_, hblk, List.length_replicate _ _⟩
  · intro i hi
    apply index_of_getElem? (b := ⟨n, h.length⟩) hblk
    rw [List.getElem?_replicate, if_pos hi]

/-- Instance of `ofSizeValue_spec`: `BoxArray(3, 7)` on an empty heap. -/
theorem ofSizeValue_spec_witness :
    3 ≤ 8 ∧ ∃ h1 b, ofSizeValue 8 defaultConstructed ([] : Heap Nat) 3 7 = .ok (h1, b) ∧
      Valid h1 b ∧ size b = 3 ∧ ∀ i, i < 3 → (index h1 b i).1 = .ok 7 :=
  ⟨by decide, ofSizeValue_spec 8 defaultConstructed [] 3 7 (by decide)⟩

/-- C9 (as stated, refuted): `BoxArray(3)` with a scalar element type, whose fresh elements
keep the stale storage, is a buffer of size `3` holding `3735928559` at every index, not
the default value. -/
theorem ofSize_counterexample :
    ofSize 8 staleStorage ([] : Heap Nat) (some 3) =
      .ok ([some [3735928559, 3735928559, 3735928559]], ⟨3, 0⟩) ∧
    (index ([some [3735928559, 3735928559, 3735928559]] : Heap Nat) ⟨3, 0⟩ 0).1 =
      .ok 3735928559 ∧
    (3735928559 : Nat) ≠ default :=
  ⟨rfl, rfl, by decide⟩

/-- C9 (amended): when the allocator grants `n` elements, `BoxArray(n)` yields a valid
buffer with `size() == n` whose element at every index `i < n` is the default-initialised
element `i` of the new block: the default value when the default constructor of `T`
produces it, an indeterminate value otherwise; the constructor called without an argument
yields a valid buffer of size `0`. -/
theorem ofSize_spec [Inhabited T] (lim : Nat) (fresh : Nat → Nat → T) (h : Heap T)
    (n : Nat) (hlim : n ≤ lim) :
    (∃ h1 b, ofSize lim fresh h (some n) = .ok (h1, b) ∧ Valid h1 b ∧ size b = n ∧
      (∀ i, i < n → (index h1 b i).1 = .ok (fresh h.length i)) ∧
      ((∀ p i, fresh p i = default) → ∀ i, i < n → (index h1 b i).1 = .ok default)) ∧
    (∃ h1 b, ofSize lim fresh h none = .ok (h1, (b : BoxArray T)) ∧ Valid h1 b ∧
      size b = 0) := by
  have hnew : ∀ i, i < n →
      (index (h ++ [some (Heap.freshBlock fresh h.length n)])
        (⟨n, h.length⟩ : BoxArray T) i).1 = .ok (fresh h.length i) := by
    intro i hi
    apply index_of_getElem? (b := ⟨n, h.length⟩) (Heap.block_append_self h _)
    rw [Heap.getElem?_freshBlock, if_pos hi]
  constructor
  · refine ⟨_, _, ofSize_eq lim fresh h (some n) hlim, ?_, rfl, hnew, ?_⟩
    · exact (valid_iff _ _).2
        ⟨_, Heap.block_append_self h _, Heap.length_freshBlock _ _ _⟩
    · intro hfresh i hi
      have := hnew i hi
      rw [hfresh] at this
      exact this
  · refine ⟨_, _, ofSize_eq lim fresh h none (Nat.zero_le lim), ?_, rfl⟩
    exact (valid_iff _ _).2 ⟨_, Heap.block_append_self h _, Heap.length_freshBlock _ _ _⟩

/-- Instance of `ofSize_spec`: `BoxArray(3)` and `BoxArray()` on an empty heap. -/
theorem ofSize_spec_witness :
    3 ≤ 8 ∧
    ((∃ h1 b, ofSize 8 defaultConstructed ([] : Heap Nat) (some 3) = .ok (h1, b) ∧
      Valid h1 b ∧ size b = 3 ∧
      (∀ i, i < 3 → (index h1 b i).1 =
        .ok ((defaultConstructed : Nat → Nat → Nat) ([] : Heap Nat).length i)) ∧
      ((∀ p i, (defaultConstructed : Nat → Nat → Nat) p i = default) →
        ∀ i, i < 3 → (index h1 b i).1 = .ok default)) ∧
    (∃ h1 b, ofSize 8 defaultConstructed ([] : Heap Nat) none =
      .ok (h1, (b : BoxArray Nat)) ∧ Valid h1 b ∧ size b = 0)) :=
  ⟨by decide, ofSize_spec 8 defaultConstructed [] 3 (by decide)⟩

/-- C10: on a valid buffer, `fill(v)` returns, the size is the one before the call and
every index `i < size()` holds `v` afterwards; on a buffer of size `0` the heap and the
object are left as they were. -/
theorem fill_spec (h : Heap T) (b : BoxArray T) (v : T) (hv : Valid h b) :
    (fill h b v).1 = .ok () ∧ size (fill h b v).2.2 = size b ∧
    (∀ i, i < size b → (index (fill h b v).2.1 (fill h b v).2.2 i).1 = .ok v) ∧
    (size b = 0 → (fill h b v).2 = (h, b)) := by
  obtain ⟨s, hb, hs⟩ := (valid_iff h b).1 hv
  obtain ⟨h1, heq, hblk, -⟩ := fill_eq h b v s hb hs
  refine ⟨by rw [heq], by rw [heq], ?_, ?_⟩
  · intro i hi
    rw [heq]
    apply index_of_getElem? hblk
    rw [List.getElem?_replicate]
    exact if_pos hi
  · intro h0
    unfold size at h0
    unfold fill
    rw [h0]
    rfl

/-- Instance of `fill_spec`: `fill(5)` on the buffer `{7, 8, 9}`. -/
theorem fill_spec_witness :
    Valid ([some [7, 8, 9]] : Heap Nat) ⟨3, 0⟩ ∧
    ((fill ([some [7, 8, 9]] : Heap Nat) ⟨3, 0⟩ 5).1 = .ok () ∧
    size (fill ([some [7, 8, 9]] : Heap Nat) ⟨3, 0⟩ 5).2.2 = size (⟨3, 0⟩ : BoxArray Nat) ∧
    (∀ i, i < size (⟨3, 0⟩ : BoxArray Nat) →
      (index (fill ([some [7, 8, 9]] : Heap Nat) ⟨3, 0⟩ 5).2.1
        (fill ([some [7, 8, 9]] : Heap Nat) ⟨3, 0⟩ 5).2.2 i).1 = .ok 5) ∧
    (size (⟨3, 0⟩ : BoxArray Nat) = 0 →
      (fill ([some [7, 8, 9]] : Heap Nat) ⟨3, 0⟩ 5).2 = ([some [7, 8, 9]], ⟨3, 0⟩))) :=
  ⟨by decide, fill_spec [some [7, 8, 9]] ⟨3, 0⟩ 5 (by decide)⟩

end BoxArray

/-! Lemmas: traversals -/

/-- Forward traversal of the block `s` at `p` from offset `i` to its end: it visits
`(i, s[i]), (i + 1, s[i + 1]), ...` when the fuel covers the `s.length - i` iterations,
and does not finish otherwise. -/
theorem traverse_from (h : Heap T) (p : Nat) (s : List T) (hb : Heap.block h p = some s) :
    ∀ (fuel i : Nat), i ≤ s.length →
      (s.length - i ≤ fuel →
        traverse h { base := p, off := s.length } fuel { base := p, off := i } =
          some (.ok (List.enumFrom i (s.drop i)))) ∧
      (fuel < s.length - i →
        traverse h { base := p, off := s.length } fuel { base := p, off := i } = none) := by
  intro fuel
  induction fuel with
  | zero =>
    intro i hi
    constructor
    · intro hf
      have hie : i = s.length := by omega
      subst hie
      simp [traverse]
    · intro hf
      have hne : ({ base := p, off := i } : Pointer) ≠ { base := p, off := s.length } := by
        intro hc
        have := congrArg Pointer.off hc
        simp at this
        omega
      simp only [traverse, if_neg hne]
  | succ fuel ih =>
    intro i hi
    by_cases hie : i = s.length
    · subst hie
      constructor
      · intro _
        simp [traverse]
      · intro hf
        omega
    · have hlt : i < s.length := by omega
      have hne : ({ base := p, off := i } : Pointer) ≠ { base := p, off := s.length } := by
        intro hc
        have := congrArg Pointer.off hc
        simp at this
        omega
      have hread : Heap.read h p i = .ok s[i] := Heap.read_of_block hb hlt
      obtain ⟨ih1, ih2⟩ := ih (i + 1) (by omega)
      constructor
      · intro hf
        simp only [traverse, if_neg hne, hread]
        rw [ih1 (by omega), List.drop_eq_getElem_cons hlt, List.enumFrom_cons]
      · intro hf
        simp only [traverse, if_neg hne, hread]
        rw [ih2 (by omega)]

theorem enum_take_succ_reverse (s : List T) (j : Nat) (hlt : j < s.length) :
    (List.enum (s.take (j + 1))).reverse = (j, s[j]) :: (List.enum (s.take j)).reverse := by
  have hl : (s.take j).length = j := by
    rw [List.length_take]; omega
  rw [List.take_succ, List.getElem?_eq_getElem hlt, Option.toList, List.enum_append,
    List.reverse_append, hl]
  rfl

/-- Reverse traversal of the block `s` at `p` from `current` at offset `j` down to the
first element: it visits `(j - 1, s[j - 1]), ..., (0, s[0])` when the fuel covers the `j`
iterations, and does not finish otherwise. -/
theorem rtraverse_from (h : Heap T) (p : Nat) (s : List T)
    (hb : Heap.block h p = some s) :
    ∀ (fuel j : Nat), j ≤ s.length →
      (j ≤ fuel →
        rtraverse h { current := { base := p, off := 0 } } fuel
            { current := { base := p, off := j } } =
          some (.ok (List.enum (s.take j)).reverse)) ∧
      (fuel < j →
        rtraverse h { current := { base := p, off := 0 } } fuel
            { current := { base := p, off := j } } = none) := by
  intro fuel
  induction fuel with
  | zero =>
    intro j hj
    constructor
    · intro hf
      have hje : j = 0 := by omega
      subst hje
      simp [rtraverse]
    · intro hf
      have hne : ({ current := { base := p, off := j } } : ReverseIterator) ≠
          { current := { base := p, off := 0 } } := by
        intro hc
        have := congrArg (fun r => r.current.off) hc
        simp at this
        omega
      simp only [rtraverse, if_neg hne]
  | succ fuel ih =>
    intro j hj
    cases j with
    | zero =>
      constructor
      · intro _
        simp [rtraverse]
      · intro hf
        omega
    | succ j =>
      have hlt : j < s.length := by omega
      have hne : ({ current := { base := p, off := j + 1 } } : ReverseIterator) ≠
          { current := { base := p, off := 0 } } := by
        intro hc
        have := congrArg (fun r => r.current.off) hc
        simp at this
      have hread : Heap.read h p j = .ok s[j] := Heap.read_of_block hb hlt
      obtain ⟨ih1, ih2⟩ := ih j (by omega)
      constructor
      · intro hf
        simp only [rtraverse, if_neg hne, Nat.add_sub_cancel, Nat.succ_ne_zero, if_false,
          hread]
        rw [ih1 (by omega), enum_take_succ_reverse s j hlt]
      · intro hf
        simp only [rtraverse, if_neg hne, Nat.add_sub_cancel, Nat.succ_ne_zero, if_false,
          hread]
        rw [ih2 (by omega)]

/-! Lemmas: whole blocks after resize, and the contents read back -/

theorem eq_append_drop (d s f : List T)
    (hget : ∀ j, d[j]? = if j < s.length then s[j]? else f[j]?) :
    d = s ++ f.drop s.length := by
  apply List.ext_getElem?
  intro j
  rw [hget j]
  by_cases hj : j < s.length
  · rw [if_pos hj, List.getElem?_append_left hj]
  · have hle : s.length ≤ j := by omega
    have e : s.length + (j - s.length) = j := by omega
    rw [if_neg hj, List.getElem?_append_right hle, List.getElem?_drop, e]

theorem freshBlock_drop_last (fresh : Nat → Nat → T) (p n : Nat) :
    (Heap.freshBlock fresh p (n + 1)).drop n = [fresh p n] := by
  apply List.ext_getElem?
  intro j
  rw [List.getElem?_drop, Heap.getElem?_freshBlock]
  cases j with
  | zero => simp
  | succ j =>
    have h1 : ¬ n + (j + 1) < n + 1 := by omega
    rw [if_neg h1]
    rfl

namespace BoxArray

theorem readAll_of_block {h : Heap T} {b : BoxArray T} {s : List T}
    (hb : Heap.block h b._data = some s) (hs : s.length = b._size) :
    readAll h b = s.map .ok := by
  unfold readAll
  apply List.ext_getElem?
  intro j
  rw [List.getElem?_map, List.getElem?_map]
  by_cases hj : j < s.length
  · have hjb : j < b._size := by omega
    rw [List.getElem?_range hjb, List.getElem?_eq_getElem hj]
    simp only [Option.map_some']
    unfold at_
    rw [if_neg (by omega)]
    exact congrArg some (Heap.read_of_block hb hj)
  · have h2 : s.length ≤ j := by omega
    have h3 : (List.range b._size).length ≤ j := by simp; omega
    rw [List.getElem?_eq_none h2, List.getElem?_eq_none h3]
    rfl

/-- The explicit-size branch, not shrinking: the new block is the old one followed by the
default-initialised elements of the fresh block from index `_size` on. -/
theorem resize_explicit_block (lim : Nat) (fresh : Nat → Nat → T) (h : Heap T)
    (b : BoxArray T) (k : Nat) (s : List T) (hb : Heap.block h b._data = some s)
    (hs : s.length = b._size) (hk : k ≠ SIZE_MAX) (hge : b._size ≤ k) (hlim : k ≤ lim) :
    ∃ h3, resize lim fresh h b k = (.ok (), h3, { _size := k, _data := h.length }) ∧
      h3.length = h.length + 1 ∧
      Heap.block h3 h.length =
        some (s ++ (Heap.freshBlock fresh h.length k).drop b._size) ∧
      (∀ q, q ≠ b._data → q < h.length → h3[q]? = h[q]?) ∧
      Heap.block h3 b._data = none := by
  obtain ⟨h3, d1, heq, hl, hblk, -, hget, hframe, hold⟩ :=
    resize_explicit_spec lim fresh h b k s hb hs hk hge hlim
  have hd : d1 = s ++ (Heap.freshBlock fresh h.length k).drop s.length := by
    apply eq_append_drop
    intro j
    rw [hget j, hs, Heap.getElem?_freshBlock]
  rw [hs] at hd
  subst hd
  exact ⟨h3, heq, hl, hblk, hframe, hold⟩

/-- The grow-by-one branch: the new block is the old one followed by the one
default-initialised element at index `_size` of the fresh block. -/
theorem resize_sentinel_block (lim : Nat) (fresh : Nat → Nat → T) (h : Heap T)
    (b : BoxArray T) (s : List T) (hb : Heap.block h b._data = some s)
    (hs : s.length = b._size) (hn : b._size < SIZE_MAX) (hlim : b._size + 1 ≤ lim) :
    ∃ h3, resizeDefault lim fresh h b =
        (.ok (), h3, { _size := b._size + 1, _data := h.length }) ∧
      h3.length = h.length + 1 ∧
      Heap.block h3 h.length = some (s ++ [fresh h.length b._size]) ∧
      (∀ q, q ≠ b._data → q < h.length → h3[q]? = h[q]?) ∧
      Heap.block h3 b._data = none := by
  obtain ⟨h3, d1, heq, hl, hblk, -, hget, hframe, hold⟩ :=
    resize_sentinel_spec lim fresh h b s hb hs hn hlim
  have hd : d1 = s ++ (Heap.freshBlock fresh h.length (b._size + 1)).drop s.length := by
    apply eq_append_drop
    intro j
    rw [hget j, hs, Heap.getElem?_freshBlock]
  rw [hs, freshBlock_drop_last] at hd
  subst hd
  exact ⟨h3, heq, hl, hblk, hframe, hold⟩

end BoxArray

/-! Lemmas: assignment through a reference, and when the operations return -/

namespace BoxArray

theorem assignIndex_of_block {h : Heap T} {b : BoxArray T} {s : List T}
    (hb : Heap.block h b._data = some s) {i : Nat} (hi : i < s.length) (v : T) :
    assignIndex h b i v = (.ok (), h.set b._data (some (s.set i v)), b) := by
  unfold assignIndex
  rw [Heap.write_of_block hb hi]

theorem assignIndex_ok_imp {h : Heap T} {b : BoxArray T} {s : List T}
    (hb : Heap.block h b._data = some s) {i : Nat} {v : T}
    (hok : (assignIndex h b i v).1 = .ok ()) : i < s.length := by
  by_contra hc
  have hw := Heap.write_out_of_bounds hb (Nat.le_of_not_lt hc) v
  unfold assignIndex at hok
  rw [hw] at hok
  cases hok

theorem assignAt_eq_assignIndex (h : Heap T) (b : BoxArray T) {i : Nat} (hi : i < b._size)
    (v : T) : assignAt h b i v = assignIndex h b i v := by
  unfold assignAt assignIndex
  rw [if_neg (by omega)]

theorem assignAt_ok_imp {h : Heap T} {b : BoxArray T} {i : Nat} {v : T}
    (hok : (assignAt h b i v).1 = .ok ()) : i < b._size := by
  by_contra hc
  unfold assignAt at hok
  rw [if_pos (by omega)] at hok
  cases hok

theorem resize_explicit_ok_imp (lim : Nat) (fresh : Nat → Nat → T) (h : Heap T)
    (b : BoxArray T)
    (k : Nat) (hv : Valid h b) (hk : k ≠ SIZE_MAX) (hok : (resize lim fresh h b k).1 = .ok ()) :
    b._size ≤ k ∧ k ≤ lim := by
  by_cases hlim : k ≤ lim
  · refine ⟨?_, hlim⟩
    by_contra hc
    rw [resize_shrink_out_of_bounds lim fresh h b k hv hk (by omega) hlim] at hok
    cases hok
  · exfalso
    have hnew : Heap.new lim fresh h k = .error .bad_alloc := Heap.new_of_lt fresh h (by omega)
    unfold resize at hok
    rw [if_neg hk, hnew] at hok
    cases hok

/-- When the allocation of the grow-by-one branch fails, `++_size` has already happened:
`resize()` throws and leaves an object whose `_size` is one more than its block holds. -/
theorem resizeDefault_bad_alloc (lim : Nat) (fresh : Nat → Nat → T) (h : Heap T)
    (b : BoxArray T)
    (hv : Valid h b) (hn : b._size < SIZE_MAX) (hl : lim < b._size + 1) :
    resizeDefault lim fresh h b =
      (.error .bad_alloc, h, { _size := b._size + 1, _data := b._data }) ∧
    ¬ Valid h { _size := b._size + 1, _data := b._data } := by
  obtain ⟨s, hb, hs⟩ := (valid_iff h b).1 hv
  constructor
  · unfold resizeDefault
    rw [resize_sentinel_eq, preIncrement_of_lt hn, Heap.new_of_lt fresh h hl]
  · intro hc
    obtain ⟨s1, hb1, hs1⟩ := (valid_iff _ _).1 hc
    have hb2 : Heap.block h b._data = some s1 := hb1
    rw [hb] at hb2
    cases hb2
    have hs2 : s.length = b._size + 1 := hs1
    omega

theorem ofSize_ok_imp {lim : Nat} {fresh : Nat → Nat → T} {h : Heap T} {n : Option Nat}
    {h1 : Heap T} {b1 : BoxArray T} (hok : ofSize lim fresh h n = .ok (h1, b1)) :
    n.getD 0 ≤ lim := by
  by_contra hc
  unfold ofSize at hok
  rw [Heap.new_of_lt fresh h (by omega)] at hok
  cases hok

theorem ofSizeValue_ok_imp {lim : Nat} {fresh : Nat → Nat → T} {h : Heap T} {n : Nat} {t : T}
    {h1 : Heap T} {b1 : BoxArray T} (hok : ofSizeValue lim fresh h n t = .ok (h1, b1)) :
    n ≤ lim := by
  by_contra hc
  unfold ofSizeValue at hok
  rw [Heap.new_of_lt fresh h (by omega)] at hok
  cases hok

theorem ofInit_ok_imp {lim : Nat} {fresh : Nat → Nat → T} {h : Heap T} {L : List T}
    {h1 : Heap T} {b1 : BoxArray T} (hok : ofInit lim fresh h L = .ok (h1, b1)) :
    L.length ≤ lim := by
  by_contra hc
  unfold ofInit at hok
  rw [Heap.new_of_lt fresh h (by omega)] at hok
  cases hok

end BoxArray

/-! Claims about copy, move and destruction -/

namespace BoxArray

/-- C11 (the code at the failing input): the defaulted copy of the valid buffer `{1, 2, 3}`
holds the same `_data` as the original.  The assignment `b[0] = 9` through the copy changes
element `0` of the original from `1` to `9`, and `b.resize(5)` on the copy releases the
block the original still points to.  Copy assignment into an empty buffer gives the same
shared pointer. -/
theorem copy_shares_storage :
    Valid ([some [1, 2, 3]] : Heap Nat) ⟨3, 0⟩ ∧
    (copyCtor ([some [1, 2, 3]] : Heap Nat) ⟨3, 0⟩).2._data = (⟨3, 0⟩ : BoxArray Nat)._data ∧
    (index ([some [1, 2, 3]] : Heap Nat) ⟨3, 0⟩ 0).1 = .ok 1 ∧
    (assignIndex (copyCtor ([some [1, 2, 3]] : Heap Nat) ⟨3, 0⟩).1
      (copyCtor ([some [1, 2, 3]] : Heap Nat) ⟨3, 0⟩).2 0 9).1 = .ok () ∧
    (index (assignIndex (copyCtor ([some [1, 2, 3]] : Heap Nat) ⟨3, 0⟩).1
      (copyCtor ([some [1, 2, 3]] : Heap Nat) ⟨3, 0⟩).2 0 9).2.1 ⟨3, 0⟩ 0).1 = .ok 9 ∧
    (resize 8 defaultConstructed (copyCtor ([some [1, 2, 3]] : Heap Nat) ⟨3, 0⟩).1
      (copyCtor ([some [1, 2, 3]] : Heap Nat) ⟨3, 0⟩).2 5).1 = .ok () ∧
    (index (resize 8 defaultConstructed (copyCtor ([some [1, 2, 3]] : Heap Nat) ⟨3, 0⟩).1
      (copyCtor ([some [1, 2, 3]] : Heap Nat) ⟨3, 0⟩).2 5).2.1 ⟨3, 0⟩ 0).1 =
        .error (.invalid_pointer 0) ∧
    (copyAssign ([some [1, 2, 3], some []] : Heap Nat) ⟨0, 1⟩ ⟨3, 0⟩).2._data =
      (⟨3, 0⟩ : BoxArray Nat)._data :=
  ⟨by decide, rfl, rfl, rfl, rfl, rfl, rfl, rfl⟩

/-- C12: the buffer obtained from a valid buffer `a` by move construction, and the one
obtained by move assignment into any buffer `b0`, is valid, has the size of `a`, and holds
at every index `i < size()` the element `a` held there. -/
theorem move_spec (h : Heap T) (a b0 : BoxArray T) (hv : Valid h a) :
    (Valid (moveCtor h a).1 (moveCtor h a).2.1 ∧
      size (moveCtor h a).2.1 = size a ∧
      ∀ i, i < size a → ∃ v, (index h a i).1 = .ok v ∧
        (index (moveCtor h a).1 (moveCtor h a).2.1 i).1 = .ok v) ∧
    (Valid (moveAssign h b0 a).1 (moveAssign h b0 a).2.1 ∧
      size (moveAssign h b0 a).2.1 = size a ∧
      ∀ i, i < size a → ∃ v, (index h a i).1 = .ok v ∧
        (index (moveAssign h b0 a).1 (moveAssign h b0 a).2.1 i).1 = .ok v) := by
  obtain ⟨s, hb, hs⟩ := (valid_iff h a).1 hv
  have key : ∀ i, i < size a → ∃ v, (index h a i).1 = .ok v ∧ (index h a i).1 = .ok v := by
    intro i hi
    have hsi : i < s.length := by unfold size at hi; omega
    exact ⟨s[i], index_of_getElem? hb (List.getElem?_eq_getElem hsi),
      index_of_getElem? hb (List.getElem?_eq_getElem hsi)⟩
  exact ⟨⟨hv, rfl, key⟩, ⟨hv, rfl, key⟩⟩

/-- Instance of `move_spec`: moving from the buffer `{7, 8, 9}`. -/
theorem move_spec_witness :
    Valid ([some [7, 8, 9], some []] : Heap Nat) ⟨3, 0⟩ ∧
    ((Valid (moveCtor ([some [7, 8, 9], some []] : Heap Nat) ⟨3, 0⟩).1
        (moveCtor ([some [7, 8, 9], some []] : Heap Nat) ⟨3, 0⟩).2.1 ∧
      size (moveCtor ([some [7, 8, 9], some []] : Heap Nat) ⟨3, 0⟩).2.1 =
        size (⟨3, 0⟩ : BoxArray Nat) ∧
      ∀ i, i < size (⟨3, 0⟩ : BoxArray Nat) →
        ∃ v, (index ([some [7, 8, 9], some []] : Heap Nat) ⟨3, 0⟩ i).1 = .ok v ∧
        (index (moveCtor ([some [7, 8, 9], some []] : Heap Nat) ⟨3, 0⟩).1
          (moveCtor ([some [7, 8, 9], some []] : Heap Nat) ⟨3, 0⟩).2.1 i).1 = .ok v) ∧
    (Valid (moveAssign ([some [7, 8, 9], some []] : Heap Nat) ⟨0, 1⟩ ⟨3, 0⟩).1
        (moveAssign ([some [7, 8, 9], some []] : Heap Nat) ⟨0, 1⟩ ⟨3, 0⟩).2.1 ∧
      size (moveAssign ([some [7, 8, 9], some []] : Heap Nat) ⟨0, 1⟩ ⟨3, 0⟩).2.1 =
        size (⟨3, 0⟩ : BoxArray Nat) ∧
      ∀ i, i < size (⟨3, 0⟩ : BoxArray Nat) →
        ∃ v, (index ([some [7, 8, 9], some []] : Heap Nat) ⟨3, 0⟩ i).1 = .ok v ∧
        (index (moveAssign ([some [7, 8, 9], some []] : Heap Nat) ⟨0, 1⟩ ⟨3, 0⟩).1
          (moveAssign ([some [7, 8, 9], some []] : Heap Nat) ⟨0, 1⟩ ⟨3, 0⟩).2.1 i).1 =
            .ok v)) :=
  ⟨by decide, move_spec [some [7, 8, 9], some []] ⟨3, 0⟩ ⟨0, 1⟩ (by decide)⟩

/-- C13 (the code at the failing input): after the defaulted move construction from the
valid buffer `{1, 2, 3}` the source holds the same `_data` as the new object and is still a
valid buffer on that block.  The destructor of the new object releases the block, and the
destructor of the source then runs `delete[]` on the released block.  Move assignment
leaves the source pointing to the shared block as well, and the block the destination
owned before stays live after the destination is destroyed. -/
theorem move_leaves_source_owning :
    Valid ([some [1, 2, 3]] : Heap Nat) ⟨3, 0⟩ ∧
    (moveCtor ([some [1, 2, 3]] : Heap Nat) ⟨3, 0⟩).2.2._data =
      (moveCtor ([some [1, 2, 3]] : Heap Nat) ⟨3, 0⟩).2.1._data ∧
    Valid (moveCtor ([some [1, 2, 3]] : Heap Nat) ⟨3, 0⟩).1
      (moveCtor ([some [1, 2, 3]] : Heap Nat) ⟨3, 0⟩).2.2 ∧
    dtor (moveCtor ([some [1, 2, 3]] : Heap Nat) ⟨3, 0⟩).1
      (moveCtor ([some [1, 2, 3]] : Heap Nat) ⟨3, 0⟩).2.1 = .ok [none] ∧
    dtor ([none] : Heap Nat) (moveCtor ([some [1, 2, 3]] : Heap Nat) ⟨3, 0⟩).2.2 =
      .error (.invalid_pointer 0) ∧
    (moveAssign ([some [1, 2, 3], some []] : Heap Nat) ⟨0, 1⟩ ⟨3, 0⟩).2.2._data =
      (moveAssign ([some [1, 2, 3], some []] : Heap Nat) ⟨0, 1⟩ ⟨3, 0⟩).2.1._data ∧
    dtor (moveAssign ([some [1, 2, 3], some []] : Heap Nat) ⟨0, 1⟩ ⟨3, 0⟩).1
      (moveAssign ([some [1, 2, 3], some []] : Heap Nat) ⟨0, 1⟩ ⟨3, 0⟩).2.1 =
        .ok [none, some []] :=
  ⟨by decide, rfl, by decide, rfl, rfl, rfl, rfl⟩

end BoxArray

/-! Claims about traversal -/

namespace BoxArray

/-- C14: on a valid buffer of size `n`, the forward traversal from `begin()` to `end()`,
and the one from `cbegin()` to `cend()`, finishes with any bound of at least `n` iterations
and with no smaller bound; it visits `n` elements, at the indices `0, 1, ..., n - 1` in
that order, each with the element `operator[]` returns there; on an empty buffer
`begin() == end()`. -/
theorem forward_traversal_spec (h : Heap T) (b : BoxArray T) (hv : Valid h b) :
    ∃ vis,
      (∀ fuel, size b ≤ fuel →
        traverse h (end_ b) fuel (begin b) = some (.ok vis) ∧
        traverse h (cend b) fuel (cbegin b) = some (.ok vis)) ∧
      (∀ fuel, fuel < size b → traverse h (end_ b) fuel (begin b) = none) ∧
      vis.length = size b ∧
      vis.map Prod.fst = List.range (size b) ∧
      (∀ i, i < size b → ∃ v, (index h b i).1 = .ok v ∧ vis[i]? = some (i, v)) ∧
      (size b = 0 → begin b = end_ b) := by
  obtain ⟨s, hb, hs⟩ := (valid_iff h b).1 hv
  have hend : end_ b = { base := b._data, off := s.length } := by
    unfold end_; rw [Nat.zero_add, hs]
  have hrun := traverse_from h b._data s hb
  refine ⟨List.enum s, ?_, ?_, ?_, ?_, ?_, ?_⟩
  · intro fuel hf
    have h1 : traverse h (end_ b) fuel (begin b) = some (.ok (List.enum s)) := by
      rw [hend]
      exact (hrun fuel 0 (Nat.zero_le _)).1 (by unfold size at hf; omega)
    exact ⟨h1, h1⟩
  · intro fuel hf
    rw [hend]
    exact (hrun fuel 0 (Nat.zero_le _)).2 (by unfold size at hf; omega)
  · rw [List.enum_length]; exact hs
  · rw [List.enum_map_fst, hs]; rfl
  · intro i hi
    have hsi : i < s.length := by unfold size at hi; omega
    refine ⟨s[i], index_of_getElem? hb (List.getElem?_eq_getElem hsi), ?_⟩
    rw [List.getElem?_enum, List.getElem?_eq_getElem hsi]
    rfl
  · intro h0
    unfold size at h0
    unfold begin end_
    rw [h0]

/-- Instance of `forward_traversal_spec` on the buffer `{7, 8, 9}`. -/
theorem forward_traversal_spec_witness :
    Valid ([some [7, 8, 9]] : Heap Nat) ⟨3, 0⟩ ∧
    ∃ vis,
      (∀ fuel, size (⟨3, 0⟩ : BoxArray Nat) ≤ fuel →
        traverse ([some [7, 8, 9]] : Heap Nat) (end_ (⟨3, 0⟩ : BoxArray Nat)) fuel
          (begin (⟨3, 0⟩ : BoxArray Nat)) = some (.ok vis) ∧
        traverse ([some [7, 8, 9]] : Heap Nat) (cend (⟨3, 0⟩ : BoxArray Nat)) fuel
          (cbegin (⟨3, 0⟩ : BoxArray Nat)) = some (.ok vis)) ∧
      (∀ fuel, fuel < size (⟨3, 0⟩ : BoxArray Nat) →
        traverse ([some [7, 8, 9]] : Heap Nat) (end_ (⟨3, 0⟩ : BoxArray Nat)) fuel
          (begin (⟨3, 0⟩ : BoxArray Nat)) = none) ∧
      vis.length = size (⟨3, 0⟩ : BoxArray Nat) ∧
      vis.map Prod.fst = List.range (size (⟨3, 0⟩ : BoxArray Nat)) ∧
      (∀ i, i < size (⟨3, 0⟩ : BoxArray Nat) →
        ∃ v, (index ([some [7, 8, 9]] : Heap Nat) ⟨3, 0⟩ i).1 = .ok v ∧
          vis[i]? = some (i, v)) ∧
      (size (⟨3, 0⟩ : BoxArray Nat) = 0 →
        begin (⟨3, 0⟩ : BoxArray Nat) = end_ (⟨3, 0⟩ : BoxArray Nat)) :=
  ⟨by decide, forward_traversal_spec [some [7, 8, 9]] ⟨3, 0⟩ (by decide)⟩

/-- C15: on a valid buffer of size `n`, the reverse traversal from `rbegin()` to `rend()`,
and the one from `crbegin()` to `crend()`, finishes with any bound of at least `n`
iterations and with no smaller bound; it visits `n` elements, at the indices
`n - 1, n - 2, ..., 0` in that order, each with the element `operator[]` returns there, and
the sequence it yields is the reversal of the one the forward traversal yields. -/
theorem reverse_traversal_spec (h : Heap T) (b : BoxArray T) (hv : Valid h b) :
    ∃ vis rvis,
      (∀ fuel, size b ≤ fuel →
        traverse h (end_ b) fuel (begin b) = some (.ok vis) ∧
        rtraverse h (rend b) fuel (rbegin b) = some (.ok rvis) ∧
        rtraverse h (crend b) fuel (crbegin b) = some (.ok rvis)) ∧
      (∀ fuel, fuel < size b → rtraverse h (rend b) fuel (rbegin b) = none) ∧
      rvis.length = size b ∧
      rvis.map Prod.fst = (List.range (size b)).reverse ∧
      (∀ j, j < size b → ∃ v, (index h b (size b - 1 - j)).1 = .ok v ∧
        rvis[j]? = some (size b - 1 - j, v)) ∧
      rvis = vis.reverse := by
  obtain ⟨s, hb, hs⟩ := (valid_iff h b).1 hv
  have hend : end_ b = { base := b._data, off := s.length } := by
    unfold end_; rw [Nat.zero_add, hs]
  have hrbegin : rbegin b = { current := { base := b._data, off := s.length } } := by
    unfold rbegin; rw [hend]
  have hrend : rend b = { current := { base := b._data, off := 0 } } := rfl
  have hfwd := traverse_from h b._data s hb
  have hrev := rtraverse_from h b._data s hb
  refine ⟨List.enum s, (List.enum s).reverse, ?_, ?_, ?_, ?_, ?_, rfl⟩
  · intro fuel hf
    have hf1 : s.length ≤ fuel := by unfold size at hf; omega
    have h1 : traverse h (end_ b) fuel (begin b) = some (.ok (List.enum s)) := by
      rw [hend]
      exact (hfwd fuel 0 (Nat.zero_le _)).1 (by omega)
    have h2 : rtraverse h (rend b) fuel (rbegin b) = some (.ok (List.enum s).reverse) := by
      rw [hrbegin, hrend]
      have := (hrev fuel s.length (Nat.le_refl _)).1 hf1
      rw [List.take_length] at this
      exact this
    exact ⟨h1, h2, h2⟩
  · intro fuel hf
    rw [hrbegin, hrend]
    exact (hrev fuel s.length (Nat.le_refl _)).2 (by unfold size at hf; omega)
  · rw [List.length_reverse, List.enum_length]; exact hs
  · rw [List.map_reverse, List.enum_map_fst, hs]; rfl
  · intro j hj
    have hjs : j < s.length := by unfold size at hj; omega
    have hsi : b._size - 1 - j < s.length := by omega
    refine ⟨s[b._size - 1 - j], index_of_getElem? hb (List.getElem?_eq_getElem hsi), ?_⟩
    have hjl : j < (List.enum s).length := by rw [List.enum_length]; exact hjs
    rw [List.getElem?_reverse hjl, List.enum_length, List.getElem?_enum, hs]
    unfold size
    rw [List.getElem?_eq_getElem hsi]
    rfl

/-- Instance of `reverse_traversal_spec` on the buffer `{7, 8, 9}`. -/
theorem reverse_traversal_spec_witness :
    Valid ([some [7, 8, 9]] : Heap Nat) ⟨3, 0⟩ ∧
    ∃ vis rvis,
      (∀ fuel, size (⟨3, 0⟩ : BoxArray Nat) ≤ fuel →
        traverse ([some [7, 8, 9]] : Heap Nat) (end_ (⟨3, 0⟩ : BoxArray Nat)) fuel
          (begin (⟨3, 0⟩ : BoxArray Nat)) = some (.ok vis) ∧
        rtraverse ([some [7, 8, 9]] : Heap Nat) (rend (⟨3, 0⟩ : BoxArray Nat)) fuel
          (rbegin (⟨3, 0⟩ : BoxArray Nat)) = some (.ok rvis) ∧
        rtraverse ([some [7, 8, 9]] : Heap Nat) (crend (⟨3, 0⟩ : BoxArray Nat)) fuel
          (crbegin (⟨3, 0⟩ : BoxArray Nat)) = some (.ok rvis)) ∧
      (∀ fuel, fuel < size (⟨3, 0⟩ : BoxArray Nat) →
        rtraverse ([some [7, 8, 9]] : Heap Nat) (rend (⟨3, 0⟩ : BoxArray Nat)) fuel
          (rbegin (⟨3, 0⟩ : BoxArray Nat)) = none) ∧
      rvis.length = size (⟨3, 0⟩ : BoxArray Nat) ∧
      rvis.map Prod.fst = (List.range (size (⟨3, 0⟩ : BoxArray Nat))).reverse ∧
      (∀ j, j < size (⟨3, 0⟩ : BoxArray Nat) →
        ∃ v, (index ([some [7, 8, 9]] : Heap Nat) ⟨3, 0⟩
            (size (⟨3, 0⟩ : BoxArray Nat) - 1 - j)).1 = .ok v ∧
          rvis[j]? = some (size (⟨3, 0⟩ : BoxArray Nat) - 1 - j, v)) ∧
      rvis = vis.reverse :=
  ⟨by decide, reverse_traversal_spec [some [7, 8, 9]] ⟨3, 0⟩ (by decide)⟩

end BoxArray

/-! Claims about assignment, the invariant and the algebra of resize -/

namespace BoxArray

/-- C16: on a valid buffer, for every index `i < size()` and every value `v`, the
assignment through the reference `at(i)` returns does what the one through `operator[](i)`
does: it returns, leaves the size as it was, makes `v` the element at `i`, and leaves the
element at every other index `j < size()` as it was. -/
theorem assign_spec (h : Heap T) (b : BoxArray T) (i : Nat) (v : T) (hv : Valid h b)
    (hi : i < size b) :
    assignAt h b i v = assignIndex h b i v ∧
    (assignAt h b i v).1 = .ok () ∧
    size (assignAt h b i v).2.2 = size b ∧
    (index (assignAt h b i v).2.1 (assignAt h b i v).2.2 i).1 = .ok v ∧
    (∀ j, j ≠ i → j < size b →
      (index (assignAt h b i v).2.1 (assignAt h b i v).2.2 j).1 = (index h b j).1) := by
  obtain ⟨s, hb, hs⟩ := (valid_iff h b).1 hv
  have hib : i < b._size := hi
  have hsi : i < s.length := by omega
  have hp : b._data < h.length := Heap.block_lt_length hb
  have hblk : Heap.block (h.set b._data (some (s.set i v))) b._data = some (s.set i v) :=
    Heap.block_set_self h _ hp
  have e1 := assignAt_eq_assignIndex h b hib v
  rw [e1, assignIndex_of_block hb hsi v]
  refine ⟨rfl, rfl, rfl, ?_, ?_⟩
  · apply index_of_getElem? hblk
    rw [List.getElem?_set, if_pos rfl, if_pos hsi]
  · intro j hji hj
    have hsj : j < s.length := by unfold size at hj; omega
    rw [index_of_getElem? hb (List.getElem?_eq_getElem hsj)]
    apply index_of_getElem? hblk
    rw [List.getElem?_set, if_neg (Ne.symm hji), List.getElem?_eq_getElem hsj]

/-- Instance of `assign_spec`: `b.at(1) = 5` on the buffer `{7, 8, 9}`. -/
theorem assign_spec_witness :
    Valid ([some [7, 8, 9]] : Heap Nat) ⟨3, 0⟩ ∧ 1 < size (⟨3, 0⟩ : BoxArray Nat) ∧
    (assignAt ([some [7, 8, 9]] : Heap Nat) ⟨3, 0⟩ 1 5 =
      assignIndex ([some [7, 8, 9]] : Heap Nat) ⟨3, 0⟩ 1 5 ∧
    (assignAt ([some [7, 8, 9]] : Heap Nat) ⟨3, 0⟩ 1 5).1 = .ok () ∧
    size (assignAt ([some [7, 8, 9]] : Heap Nat) ⟨3, 0⟩ 1 5).2.2 =
      size (⟨3, 0⟩ : BoxArray Nat) ∧
    (index (assignAt ([some [7, 8, 9]] : Heap Nat) ⟨3, 0⟩ 1 5).2.1
      (assignAt ([some [7, 8, 9]] : Heap Nat) ⟨3, 0⟩ 1 5).2.2 1).1 = .ok 5 ∧
    (∀ j, j ≠ 1 → j < size (⟨3, 0⟩ : BoxArray Nat) →
      (index (assignAt ([some [7, 8, 9]] : Heap Nat) ⟨3, 0⟩ 1 5).2.1
        (assignAt ([some [7, 8, 9]] : Heap Nat) ⟨3, 0⟩ 1 5).2.2 j).1 =
      (index ([some [7, 8, 9]] : Heap Nat) ⟨3, 0⟩ j).1)) :=
  ⟨by decide, by decide, assign_spec [some [7, 8, 9]] ⟨3, 0⟩ 1 5 (by decide) (by decide)⟩

/-- The invariant on the calls that return: `_data` points to a live block of exactly
`_size` elements after each of the three constructors, whenever it returns, and, starting
from a valid buffer, after each mutating operation that returns.  It says nothing of a
call that throws (see `resizeDefault_bad_alloc`) and nothing of a shrinking `resize(k)`,
which never returns (see `resize_shrink_out_of_bounds`). -/
theorem valid_after_return (lim : Nat) (fresh : Nat → Nat → T) (h : Heap T)
    (b : BoxArray T) (hv : Valid h b) (hsz : size b ≤ SIZE_MAX) :
    (∀ n h1 b1, ofSize lim fresh h n = .ok (h1, b1) → Valid h1 b1) ∧
    (∀ n t h1 b1, ofSizeValue lim fresh h n t = .ok (h1, b1) → Valid h1 b1) ∧
    (∀ L h1 b1, ofInit lim fresh h L = .ok (h1, b1) → Valid h1 b1) ∧
    (∀ i v, (assignIndex h b i v).1 = .ok () →
      Valid (assignIndex h b i v).2.1 (assignIndex h b i v).2.2) ∧
    (∀ i v, (assignAt h b i v).1 = .ok () →
      Valid (assignAt h b i v).2.1 (assignAt h b i v).2.2) ∧
    (∀ v, (fill h b v).1 = .ok () ∧ Valid (fill h b v).2.1 (fill h b v).2.2) ∧
    (∀ k, (resize lim fresh h b k).1 = .ok () →
      Valid (resize lim fresh h b k).2.1 (resize lim fresh h b k).2.2) ∧
    ((resizeDefault lim fresh h b).1 = .ok () →
      Valid (resizeDefault lim fresh h b).2.1 (resizeDefault lim fresh h b).2.2) := by
  obtain ⟨s, hb, hs⟩ := (valid_iff h b).1 hv
  have hp : b._data < h.length := Heap.block_lt_length hb
  have hassign : ∀ i v, (assignIndex h b i v).1 = .ok () →
      Valid (assignIndex h b i v).2.1 (assignIndex h b i v).2.2 := by
    intro i v hok
    have hsi : i < s.length := assignIndex_ok_imp hb hok
    rw [assignIndex_of_block hb hsi v]
    exact (valid_iff _ _).2 ⟨s.set i v, Heap.block_set_self h _ hp, by simpa using hs⟩
  have hsent : (resizeDefault lim fresh h b).1 = .ok () →
      Valid (resizeDefault lim fresh h b).2.1 (resizeDefault lim fresh h b).2.2 := by
    intro hok
    obtain ⟨hn, hl⟩ := resize_sentinel_ok_imp lim fresh h b hv hsz hok
    obtain ⟨h3, heq, -, hblk, -⟩ := resize_sentinel_block lim fresh h b s hb hs hn hl
    rw [heq]
    exact (valid_iff _ _).2 ⟨_, hblk, by simp; omega⟩
  refine ⟨?_, ?_, ?_, hassign, ?_, ?_, ?_, hsent⟩
  · intro n h1 b1 hok
    have heq := ofSize_eq lim fresh h n (ofSize_ok_imp hok)
    rw [heq] at hok
    cases hok
    exact (valid_iff _ _).2
      ⟨_, Heap.block_append_self h _, Heap.length_freshBlock _ _ _⟩
  · intro n t h1 b1 hok
    obtain ⟨h2, heq, hblk, -⟩ := ofSizeValue_eq lim fresh h n t (ofSizeValue_ok_imp hok)
    rw [heq] at hok
    cases hok
    exact (valid_iff _ _).2 ⟨_, hblk, List.length_replicate _ _⟩
  · intro L h1 b1 hok
    obtain ⟨h2, heq, hblk, -⟩ := ofInit_eq lim fresh h L (ofInit_ok_imp hok)
    rw [heq] at hok
    cases hok
    exact (valid_iff _ _).2 ⟨_, hblk, rfl⟩
  · intro i v hok
    have hib : i < b._size := assignAt_ok_imp hok
    rw [assignAt_eq_assignIndex h b hib v] at hok ⊢
    exact hassign i v hok
  · intro v
    obtain ⟨h1, heq, hblk, -⟩ := fill_eq h b v s hb hs
    rw [heq]
    exact ⟨rfl, (valid_iff _ _).2 ⟨_, hblk, List.length_replicate _ _⟩⟩
  · intro k hok
    by_cases hk : k = SIZE_MAX
    · subst hk
      exact hsent hok
    · obtain ⟨hge, hlim⟩ := resize_explicit_ok_imp lim fresh h b k hv hk hok
      obtain ⟨h3, heq, -, hblk, -⟩ := resize_explicit_block lim fresh h b k s hb hs hk hge hlim
      rw [heq]
      exact (valid_iff _ _).2 ⟨_, hblk, by simp; omega⟩

/-- C17 (the code at the failing input): `resize()` on the valid buffer `{7, 8}` when the
allocator grants at most `2` elements.  The call throws `bad_alloc` after `++_size` has
run: the object is left with `_size == 3` on its block of `2` elements, so it is not valid
any more, and `at(2)` passes the range check and reads outside the block.  The
explicit-size branch, on the same failure, leaves the object as it was. -/
theorem resizeDefault_throw_breaks_invariant :
    Valid ([some [7, 8]] : Heap Nat) ⟨2, 0⟩ ∧
    resizeDefault 2 defaultConstructed ([some [7, 8]] : Heap Nat) ⟨2, 0⟩ =
      (.error .bad_alloc, [some [7, 8]], ⟨3, 0⟩) ∧
    ¬ Valid ([some [7, 8]] : Heap Nat) ⟨3, 0⟩ ∧
    Heap.block ([some [7, 8]] : Heap Nat) (⟨3, 0⟩ : BoxArray Nat)._data = some [7, 8] ∧
    size (⟨3, 0⟩ : BoxArray Nat) = 3 ∧
    (at_ ([some [7, 8]] : Heap Nat) ⟨3, 0⟩ 2).1 = .error (.out_of_bounds 2 2) ∧
    resize 2 defaultConstructed ([some [7, 8]] : Heap Nat) ⟨2, 0⟩ 5 =
      (.error .bad_alloc, [some [7, 8]], ⟨2, 0⟩) :=
  ⟨by decide, rfl, by decide, rfl, rfl, rfl, rfl⟩

/-- C19: on a valid buffer whose size `n` is not `SIZE_MAX` and is granted by the
allocator, `resize(n)` returns and leaves the size and the elements read in index order as
they were; and for every explicit count `k ≠ SIZE_MAX` with `k ≥ n` that the allocator
grants, `resize(k)` performed twice returns with the size and the elements that
`resize(k)` performed once leaves.  This holds whatever default-initialisation leaves in
fresh elements. -/
theorem resize_idempotent (lim : Nat) (fresh : Nat → Nat → T) (h : Heap T)
    (b : BoxArray T) (hv : Valid h b) (hn : size b ≠ SIZE_MAX) (hnl : size b ≤ lim) :
    ((resize lim fresh h b (size b)).1 = .ok () ∧
      size (resize lim fresh h b (size b)).2.2 = size b ∧
      readAll (resize lim fresh h b (size b)).2.1 (resize lim fresh h b (size b)).2.2 =
        readAll h b) ∧
    (∀ k, k ≠ SIZE_MAX → size b ≤ k → k ≤ lim →
      (resize lim fresh h b k).1 = .ok () ∧
      (resize lim fresh (resize lim fresh h b k).2.1 (resize lim fresh h b k).2.2 k).1 =
        .ok () ∧
      size (resize lim fresh (resize lim fresh h b k).2.1
          (resize lim fresh h b k).2.2 k).2.2 =
        size (resize lim fresh h b k).2.2 ∧
      readAll
          (resize lim fresh (resize lim fresh h b k).2.1 (resize lim fresh h b k).2.2 k).2.1
          (resize lim fresh (resize lim fresh h b k).2.1 (resize lim fresh h b k).2.2 k).2.2 =
        readAll (resize lim fresh h b k).2.1 (resize lim fresh h b k).2.2) := by
  obtain ⟨s, hb, hs⟩ := (valid_iff h b).1 hv
  constructor
  · have hnb : b._size ≠ SIZE_MAX := hn
    have hnlb : b._size ≤ lim := hnl
    obtain ⟨h3, heq, -, hblk, -⟩ :=
      resize_explicit_block lim fresh h b b._size s hb hs hnb (Nat.le_refl _) hnlb
    have hnil : (Heap.freshBlock fresh h.length b._size).drop b._size = [] :=
      List.drop_eq_nil_of_le (by simp)
    rw [hnil, List.append_nil] at hblk
    unfold size
    rw [heq]
    refine ⟨rfl, rfl, ?_⟩
    rw [readAll_of_block (b := ⟨b._size, h.length⟩) hblk hs, readAll_of_block hb hs]
  · intro k hk hge hlim
    have hgeb : b._size ≤ k := hge
    obtain ⟨h3, heq, -, hblk, -⟩ :=
      resize_explicit_block lim fresh h b k s hb hs hk hgeb hlim
    have hlen : (s ++ (Heap.freshBlock fresh h.length k).drop b._size).length = k := by
      simp; omega
    rw [heq]
    obtain ⟨h5, heq5, -, hblk5, -⟩ :=
      resize_explicit_block lim fresh h3 ⟨k, h.length⟩ k _ hblk hlen hk (Nat.le_refl _) hlim
    have hnil : (Heap.freshBlock fresh h3.length k).drop k = [] :=
      List.drop_eq_nil_of_le (by simp)
    change Heap.block h5 h3.length = some
      ((s ++ (Heap.freshBlock fresh h.length k).drop b._size) ++
        (Heap.freshBlock fresh h3.length k).drop k) at hblk5
    rw [hnil, List.append_nil] at hblk5
    rw [heq5]
    refine ⟨rfl, rfl, rfl, ?_⟩
    rw [readAll_of_block (b := ⟨k, h3.length⟩) hblk5 hlen,
      readAll_of_block (b := ⟨k, h.length⟩) hblk hlen]

/-- Instance of `resize_idempotent` on the buffer `{7, 8}` of a scalar element type. -/
theorem resize_idempotent_witness :
    Valid ([some [7, 8]] : Heap Nat) ⟨2, 0⟩ ∧ size (⟨2, 0⟩ : BoxArray Nat) ≠ SIZE_MAX ∧
    size (⟨2, 0⟩ : BoxArray Nat) ≤ 8 ∧
    (((resize 8 staleStorage ([some [7, 8]] : Heap Nat) ⟨2, 0⟩
        (size (⟨2, 0⟩ : BoxArray Nat))).1 = .ok () ∧
      size (resize 8 staleStorage ([some [7, 8]] : Heap Nat) ⟨2, 0⟩
        (size (⟨2, 0⟩ : BoxArray Nat))).2.2 = size (⟨2, 0⟩ : BoxArray Nat) ∧
      readAll (resize 8 staleStorage ([some [7, 8]] : Heap Nat) ⟨2, 0⟩
          (size (⟨2, 0⟩ : BoxArray Nat))).2.1
        (resize 8 staleStorage ([some [7, 8]] : Heap Nat) ⟨2, 0⟩
          (size (⟨2, 0⟩ : BoxArray Nat))).2.2 =
        readAll ([some [7, 8]] : Heap Nat) ⟨2, 0⟩) ∧
    (∀ k, k ≠ SIZE_MAX → size (⟨2, 0⟩ : BoxArray Nat) ≤ k → k ≤ 8 →
      (resize 8 staleStorage ([some [7, 8]] : Heap Nat) ⟨2, 0⟩ k).1 = .ok () ∧
      (resize 8 staleStorage (resize 8 staleStorage ([some [7, 8]] : Heap Nat) ⟨2, 0⟩ k).2.1
        (resize 8 staleStorage ([some [7, 8]] : Heap Nat) ⟨2, 0⟩ k).2.2 k).1 = .ok () ∧
      size (resize 8 staleStorage
          (resize 8 staleStorage ([some [7, 8]] : Heap Nat) ⟨2, 0⟩ k).2.1
          (resize 8 staleStorage ([some [7, 8]] : Heap Nat) ⟨2, 0⟩ k).2.2 k).2.2 =
        size (resize 8 staleStorage ([some [7, 8]] : Heap Nat) ⟨2, 0⟩ k).2.2 ∧
      readAll
          (resize 8 staleStorage
            (resize 8 staleStorage ([some [7, 8]] : Heap Nat) ⟨2, 0⟩ k).2.1
            (resize 8 staleStorage ([some [7, 8]] : Heap Nat) ⟨2, 0⟩ k).2.2 k).2.1
          (resize 8 staleStorage
            (resize 8 staleStorage ([some [7, 8]] : Heap Nat) ⟨2, 0⟩ k).2.1
            (resize 8 staleStorage ([some [7, 8]] : Heap Nat) ⟨2, 0⟩ k).2.2 k).2.2 =
        readAll (resize 8 staleStorage ([some [7, 8]] : Heap Nat) ⟨2, 0⟩ k).2.1
          (resize 8 staleStorage ([some [7, 8]] : Heap Nat) ⟨2, 0⟩ k).2.2)) :=
  ⟨by decide, by decide, by decide,
    resize_idempotent 8 staleStorage [some [7, 8]] ⟨2, 0⟩ (by decide) (by decide)
      (by decide)⟩

end BoxArray

end ppp
